import Mathlib

/-!
# Verification of the metal-promise core (`src/promise/Promise.js`)

A shallow embedding of the `CancellablePromise` implementation.  The JS code is
single-threaded with a deferred-execution scheduler (`async.run`), so we model
the whole system as an explicit `World` state:

  * a heap of promise objects addressed by natural-number ids
    (object identity in JS becomes id equality here),
  * the FIFO queue of tasks handed to `async.run`,
  * cells holding the captured mutable variables of combinator closures
    (`firstFulfilled`'s `toReject` / `reasons`),
  * observation logs: a trace of user-callback invocations, the list of values
    passed to the unhandled-rejection reporter, and uncaught exceptions that
    escaped a scheduled task.

JS functions stored in callback entries are represented by the inductive `Fn`:
one constructor per closure shape that actually occurs in the source
(pass-through `resolve`/`reject` of a child, the wrapped handlers built by
`addChildPromise_`, the unblock callbacks, the `firstFulfilled` closures, and
plain user callbacks).  User callbacks are the inductive `UserFn`; invoking one
records `(id, argument)` in the world's trace so that delivery counts are
observable.

Functions that can `throw` in JS return `World × Option JSVal`, the second
component being the thrown value (`none` = normal return).  The model fixes
`UNHANDLED_REJECTION_DELAY = 0` (the value set at line 282 of the source), so
the same-tick unhandled-rejection mode is the one embedded.

Recursions that are not structural in JS (draining a queue that may grow,
walking a parent chain) take explicit fuel; the scheduler loop `run` takes the
number of tasks to process.
-/

namespace MetalPromise

/-- `CancellablePromise.State_` (Promise.js lines 291-303). -/
inductive PState where
  | PENDING
  | BLOCKED
  | FULFILLED
  | REJECTED
deriving DecidableEq

/-- The universe of JS values the embedded code manipulates.  `cancelErr` is a
`CancellablePromise.CancellationError` (its `IS_CANCELLATION_ERROR` property is
`true`, line 771); `errObj name msg` is any other `Error`-like object (for
example a `TypeError`); `promiseRef` is a reference to a promise in the heap. -/
inductive JSVal where
  | undef
  | jnull
  | bool (b : Bool)
  | num (n : Int)
  | str (s : String)
  | arr (vs : List JSVal)
  | promiseRef (id : Nat)
  | cancelErr (msg : Option String)
  | errObj (name : String) (msg : String)

/-- Boolean equality on JS values (structural; for promise references this is
reference equality, since the heap id is the identity). -/
def JSVal.beq : JSVal → JSVal → Bool
  | .undef, .undef => true
  | .jnull, .jnull => true
  | .bool a, .bool b => a == b
  | .num a, .num b => a == b
  | .str a, .str b => a == b
  | .arr as, .arr bs => go as bs
  | .promiseRef a, .promiseRef b => a == b
  | .cancelErr a, .cancelErr b => a == b
  | .errObj a b, .errObj c d => a == c && b == d
  | _, _ => false
where go : List JSVal → List JSVal → Bool
  | [], [] => true
  | x :: xs, y :: ys => JSVal.beq x y && go xs ys
  | _, _ => false

theorem JSVal.beq_iff : ∀ a b : JSVal, JSVal.beq a b = true ↔ a = b :=
  @JSVal.rec (fun a => ∀ b : JSVal, JSVal.beq a b = true ↔ a = b)
    (fun as => ∀ bs : List JSVal, JSVal.beq.go as bs = true ↔ as = bs)
    (fun b => by cases b <;> simp [JSVal.beq])
    (fun b => by cases b <;> simp [JSVal.beq])
    (fun _ b => by cases b <;> simp [JSVal.beq])
    (fun _ b => by cases b <;> simp [JSVal.beq])
    (fun _ b => by cases b <;> simp [JSVal.beq])
    (fun as ih b => by
      cases b <;> simp [JSVal.beq]
      simpa using ih _)
    (fun _ b => by cases b <;> simp [JSVal.beq])
    (fun _ b => by cases b <;> simp [JSVal.beq])
    (fun _ _ b => by cases b <;> simp [JSVal.beq])
    (fun bs => by cases bs <;> simp [JSVal.beq.go])
    (fun x xs ihx ihxs bs => by
      cases bs with
      | nil => simp [JSVal.beq.go]
      | cons y ys => simp [JSVal.beq.go, ihx y, ihxs ys])

instance : DecidableEq JSVal := fun a b => decidable_of_iff _ (JSVal.beq_iff a b)

/-- A user-supplied callback.  The `id` tags the function so invocations can be
counted in the trace; the behaviour is: return a constant, rethrow a constant,
or return the argument. -/
inductive UserFn where
  | const (id : Nat) (ret : JSVal)
  | throwing (id : Nat) (err : JSVal)
  | ident (id : Nat)
deriving DecidableEq

/-- The JS function values that are stored in callback entries or scheduled.
Each constructor is one closure shape of the source:

  * `nullFn` — `nullFunction` (line 17);
  * `resolveTo p` / `rejectTo p` — the `resolve` / `reject` closures of promise
    `p`'s constructor (lines 259-264): `v => p.resolve_(FULFILLED, v)` and
    `r => p.resolve_(REJECTED, r)`;
  * `fulfillWrap f child` / `rejectWrap f child` — the wrapped handlers built
    by `addChildPromise_` (lines 896-918) around user callback `f` for `child`;
  * `unblockFulfill p` / `unblockReject p` — `unblockAndFulfill_` /
    `unblockAndReject_` bound to promise `p` (lines 933-954);
  * `ffFulfill cell` / `ffReject cell idx` — the `onFulfill` / `onReject`
    closures of `firstFulfilled` (lines 580-590) over combinator cell `cell`;
  * `user f` — a plain user callback registered via `thenVoid`/`thenAlways`. -/
inductive Fn where
  | nullFn
  | resolveTo (pid : Nat)
  | rejectTo (pid : Nat)
  | fulfillWrap (f : UserFn) (child : Nat)
  | rejectWrap (f : UserFn) (child : Nat)
  | unblockFulfill (pid : Nat)
  | unblockReject (pid : Nat)
  | ffFulfill (cell : Nat)
  | ffReject (cell : Nat) (idx : Nat)
  | user (f : UserFn)
deriving DecidableEq

/-- `CancellablePromise.CallbackEntry_` (lines 314-334).  The `context` field
is dropped: the model's functions carry no JS `this`.  `onFulfilled` is not an
`Option` because every entry the source queues has it set (`queueEntry_`
asserts this at line 1121). -/
structure Entry where
  child : Option Nat := none
  onFulfilled : Fn := Fn.nullFn
  onRejected : Option Fn := none
  always : Bool := false
deriving DecidableEq

/-- One `CancellablePromise` object (constructor, lines 186-269).  The linked
list with head `callbackEntries_` / tail `callbackEntriesTail_` is modelled as
a Lean list.  `hadUnhandledRejection` is the delay-0 flag of line 248. -/
structure PromiseObj where
  state : PState := PState.PENDING
  result : JSVal := JSVal.undef
  parent : Option Nat := none
  callbackEntries : List Entry := []
  executing : Bool := false
  hadUnhandledRejection : Bool := false
deriving DecidableEq

/-- The captured mutable variables of one `firstFulfilled` call (lines
571-597): the result promise the closures resolve/reject, the countdown
`toReject`, and the sparse `reasons` array. -/
structure FFCell where
  resultPid : Nat
  toReject : Nat
  reasons : List (Option JSVal)
deriving DecidableEq

/-- A deferred unit of work handed to `async.run`:

  * `execCallbacks p` — the drain scheduled by `scheduleCallbacks_`
    (line 1102);
  * `runCancel p msg` — the body scheduled by `cancel` (lines 769-773);
  * `unhandledCheck p reason` — the same-tick unhandled-rejection check
    (lines 1291-1295);
  * `callFn f arg` — `async.run(partial(onFulfilled, value))` from
    `resolveThen_` (line 447). -/
inductive Task where
  | execCallbacks (pid : Nat)
  | runCancel (pid : Nat) (msg : Option String)
  | unhandledCheck (pid : Nat) (reason : JSVal)
  | callFn (f : Fn) (arg : JSVal)
deriving DecidableEq

/-- The whole system state. -/
structure World where
  promises : List PromiseObj := []
  cells : List FFCell := []
  tasks : List Task := []
  trace : List (Nat × JSVal) := []
  reported : List JSVal := []
  uncaught : List JSVal := []
deriving DecidableEq

instance : Inhabited PromiseObj := ⟨{}⟩

/-- Read a promise from the heap (out-of-range reads return the default
pending object; all modelled scenarios only use allocated ids). -/
def getP (w : World) (pid : Nat) : PromiseObj :=
  w.promises.getD pid default

/-- Write a promise back to the heap. -/
def setP (w : World) (pid : Nat) (p : PromiseObj) : World :=
  { w with promises := w.promises.set pid p }

/-- In-place update of one promise. -/
def modifyP (w : World) (pid : Nat) (f : PromiseObj → PromiseObj) : World :=
  setP w pid (f (getP w pid))

instance : Inhabited FFCell := ⟨⟨0, 0, []⟩⟩

def getCell (w : World) (cid : Nat) : FFCell :=
  w.cells.getD cid default

def setCell (w : World) (cid : Nat) (c : FFCell) : World :=
  { w with cells := w.cells.set cid c }

/-- `async.run(fn)`: append a task to the FIFO scheduler queue. -/
def pushTask (w : World) (t : Task) : World :=
  { w with tasks := w.tasks ++ [t] }

/-- Allocate a fresh pending promise (the constructor with `nullFunction`
resolver, lines 186-269 with the resolver call skipped). -/
def newPromise (w : World) : World × Nat :=
  ({ w with promises := w.promises ++ [{}] }, w.promises.length)

/-- `isDef(v)`: `v !== undefined`. -/
def isDef (v : JSVal) : Bool := v != JSVal.undef

/-- Whether a value is JS-nullish (`null` or `undefined`): a property access
on it throws a `TypeError`. -/
def nullish (v : JSVal) : Bool := v == JSVal.undef || v == JSVal.jnull

/-- The property access `x.IS_CANCELLATION_ERROR`: throws a `TypeError` when
`x` is nullish, yields `true` exactly on cancellation errors (the flag is set
at line 771), and `false` (an absent property) otherwise. -/
def markerProp : JSVal → Except JSVal Bool
  | JSVal.undef => Except.error (JSVal.errObj "TypeError"
      "Cannot read properties of undefined (reading IS_CANCELLATION_ERROR)")
  | JSVal.jnull => Except.error (JSVal.errObj "TypeError"
      "Cannot read properties of null (reading IS_CANCELLATION_ERROR)")
  | JSVal.cancelErr _ => Except.ok true
  | _ => Except.ok false

instance : Inhabited Entry := ⟨{}⟩

/-- `scheduleCallbacks_` (lines 1099-1104): if no drain is in flight, mark the
promise as executing and hand `executeCallbacks_` to `async.run`. -/
def scheduleCallbacks_ (w : World) (pid : Nat) : World :=
  if (getP w pid).executing then w
  else pushTask (modifyP w pid (fun p => { p with executing := true }))
    (Task.execCallbacks pid)

/-- `hasEntry_` (lines 1111-1113). -/
def hasEntry_ (p : PromiseObj) : Bool :=
  ¬ p.callbackEntries.isEmpty

/-- `queueEntry_` (lines 1120-1133): append at the tail of the linked list.
The source's `onFulfilled !== null` assertion cannot fire (every caller sets
the field) and is omitted. -/
def queueEntry_ (w : World) (pid : Nat) (e : Entry) : World :=
  modifyP w pid (fun p => { p with callbackEntries := p.callbackEntries ++ [e] })

/-- `popEntry_` (lines 1140-1158): detach and return the head entry. -/
def popEntry_ (w : World) (pid : Nat) : World × Option Entry :=
  match (getP w pid).callbackEntries with
  | [] => (w, none)
  | e :: rest =>
      (modifyP w pid (fun p => { p with callbackEntries := rest }), some e)

/-- Removing the `i`-th node of the queue: for `i = 0` the source uses
`popEntry_` (discarding the returned entry), otherwise `removeEntryAfter_`
on the node before it (cancelChild_, lines 840-844); both amount to erasing
the node at index `i`. -/
def removeEntryAt_ (w : World) (pid : Nat) (i : Nat) : World :=
  modifyP w pid (fun p => { p with callbackEntries := p.callbackEntries.eraseIdx i })

/-- `addCallbackEntry_` (lines 861-867): schedule a drain when the promise is
already settled and the queue is empty, then append the entry. -/
def addCallbackEntry_ (w : World) (pid : Nat) (e : Entry) : World :=
  let p := getP w pid
  let w :=
    if ¬ hasEntry_ p ∧
        (p.state = PState.FULFILLED ∨ p.state = PState.REJECTED) then
      scheduleCallbacks_ w pid
    else w
  queueEntry_ w pid e

/-- The internal registration path used by `maybeThen_` and `thenVoid`
(lines 675-697): queue handlers without creating a child promise; an absent
fulfillment handler becomes `nullFunction`, an absent rejection handler stays
null. -/
def thenVoidFn (w : World) (pid : Nat) (onF onR : Option Fn) : World :=
  addCallbackEntry_ w pid
    { child := none, onFulfilled := onF.getD Fn.nullFn, onRejected := onR,
      always := false }

/-- `maybeThen_` (lines 1015-1037).  In this value universe only promise
references are thenable: branch (1) `value instanceof CancellablePromise`
subscribes via `thenVoid`; branch (2), the `$goog_Thenable` marker, holds for
no other modelled value; branch (3), an object with a callable `then`, holds
for none either (arrays and error objects expose no `then`), so every
non-promise falls through to `return false`. -/
def maybeThen_ (w : World) (value : JSVal) (onF onR : Fn) : World × Bool :=
  match value with
  | JSVal.promiseRef q => (thenVoidFn w q (some onF) (some onR), true)
  | _ => (w, false)

/-- The delay-0 branch of `addUnhandledRejection_` (lines 1289-1296): set the
same-tick flag and schedule the check that reports the reason if the flag is
still set. -/
def addUnhandledRejection_ (w : World) (pid : Nat) (reason : JSVal) : World :=
  pushTask (modifyP w pid (fun p => { p with hadUnhandledRejection := true }))
    (Task.unhandledCheck pid reason)

/-- The delay-0 loop of `removeUnhandledRejection_` (lines 1264-1268): walk
the parent chain, clearing the flag, stopping at the first promise whose flag
is not set.  Parent chains are acyclic in every reachable world, so the fuel
(one more than the heap size) never runs out there. -/
def removeURAux : Nat → World → Option Nat → World
  | 0, w, _ => w
  | _ + 1, w, none => w
  | fuel + 1, w, some pid =>
      if (getP w pid).hadUnhandledRejection then
        removeURAux fuel
          (modifyP w pid (fun p => { p with hadUnhandledRejection := false }))
          (getP w pid).parent
      else w

def removeUnhandledRejection_ (w : World) (pid : Nat) : World :=
  removeURAux (w.promises.length + 1) w (some pid)

/-- The `if (this === x)` guard of `resolve_` (lines 979-982): reference
equality with the promise object can hold only for a reference to this very
promise; in that case the resolution becomes a rejection with a `TypeError`. -/
def selfCheck (pid : Nat) (state : PState) (x : JSVal) : PState × JSVal :=
  match x with
  | JSVal.promiseRef q =>
      if q = pid then
        (PState.REJECTED, JSVal.errObj "TypeError" "Promise cannot resolve to itself")
      else (state, x)
  | _ => (state, x)

/-- `resolve_` (lines 974-1001), the promise resolution procedure.  Returns
the updated world and, in the second component, a value thrown out of the
call: the only throw site is the `x.IS_CANCELLATION_ERROR` access at line 998,
which fails when a promise is rejected with a nullish reason. -/
def resolve_ (w : World) (pid : Nat) (state : PState) (x : JSVal) :
    World × Option JSVal :=
  if (getP w pid).state ≠ PState.PENDING then (w, none)
  else
    let sx := selfCheck pid state x
    let state := sx.1
    let x := sx.2
    let w := modifyP w pid (fun p => { p with state := PState.BLOCKED })
    let wt := maybeThen_ w x (Fn.unblockFulfill pid) (Fn.unblockReject pid)
    if wt.2 then (wt.1, none)
    else
      let w := modifyP wt.1 pid
        (fun p => { p with result := x, state := state, parent := none })
      let w := scheduleCallbacks_ w pid
      if state = PState.REJECTED then
        match markerProp x with
        | Except.error e => (w, some e)
        | Except.ok true => (w, none)
        | Except.ok false => (addUnhandledRejection_ w pid x, none)
      else (w, none)

/-- Invoke a user callback: record the delivery in the trace and produce its
return value or thrown value. -/
def runUser (w : World) (f : UserFn) (arg : JSVal) : World × Except JSVal JSVal :=
  match f with
  | UserFn.const id ret => ({ w with trace := w.trace ++ [(id, arg)] }, Except.ok ret)
  | UserFn.throwing id err => ({ w with trace := w.trace ++ [(id, arg)] }, Except.error err)
  | UserFn.ident id => ({ w with trace := w.trace ++ [(id, arg)] }, Except.ok arg)

/-- Apply one of the closure shapes of `Fn` to an argument.  The wrapped
handler semantics are those of `addChildPromise_` (lines 896-918); the unblock
semantics are `unblockAndFulfill_` / `unblockAndReject_` (lines 933-954); the
`firstFulfilled` closures are lines 580-590. -/
def invokeFn (w : World) (f : Fn) (arg : JSVal) : World × Option JSVal :=
  match f with
  | Fn.nullFn => (w, none)
  | Fn.resolveTo pid => resolve_ w pid PState.FULFILLED arg
  | Fn.rejectTo pid => resolve_ w pid PState.REJECTED arg
  | Fn.fulfillWrap f child =>
      -- try { result = onFulfilled(value); resolve(result) } catch (err) { reject(err) }
      match runUser w f arg with
      | (w, Except.error e) => resolve_ w child PState.REJECTED e
      | (w, Except.ok result) =>
          match resolve_ w child PState.FULFILLED result with
          | (w, some e) => resolve_ w child PState.REJECTED e
          | (w, none) => (w, none)
  | Fn.rejectWrap f child =>
      -- try { result = onRejected(reason);
      --       if (!isDef(result) && reason.IS_CANCELLATION_ERROR) reject(reason);
      --       else resolve(result); } catch (err) { reject(err) }
      match runUser w f arg with
      | (w, Except.error e) => resolve_ w child PState.REJECTED e
      | (w, Except.ok result) =>
          let inner : World × Option JSVal :=
            if ¬ isDef result then
              match markerProp arg with
              | Except.error e => (w, some e)
              | Except.ok true => resolve_ w child PState.REJECTED arg
              | Except.ok false => resolve_ w child PState.FULFILLED result
            else resolve_ w child PState.FULFILLED result
          match inner with
          | (w, some e) => resolve_ w child PState.REJECTED e
          | (w, none) => (w, none)
  | Fn.unblockFulfill pid =>
      if (getP w pid).state ≠ PState.BLOCKED then
        (w, some (JSVal.errObj "Error" "state_ should be block"))
      else
        resolve_ (modifyP w pid (fun p => { p with state := PState.PENDING }))
          pid PState.FULFILLED arg
  | Fn.unblockReject pid =>
      if (getP w pid).state ≠ PState.BLOCKED then
        (w, some (JSVal.errObj "Error" "state_ should be block"))
      else
        resolve_ (modifyP w pid (fun p => { p with state := PState.PENDING }))
          pid PState.REJECTED arg
  | Fn.ffFulfill cid => resolve_ w (getCell w cid).resultPid PState.FULFILLED arg
  | Fn.ffReject cid idx =>
      -- toReject--; reasons[index] = reason; if (toReject === 0) reject(reasons);
      let cell := getCell w cid
      let cell := { cell with toReject := cell.toReject - 1,
                              reasons := cell.reasons.set idx (some arg) }
      let w := setCell w cid cell
      if cell.toReject = 0 then
        resolve_ w cell.resultPid PState.REJECTED
          (JSVal.arr (cell.reasons.map (fun o => o.getD JSVal.undef)))
      else (w, none)
  | Fn.user f =>
      match runUser w f arg with
      | (w, Except.ok _) => (w, none)
      | (w, Except.error e) => (w, some e)

/-- `invokeCallback_` (lines 1242-1248). -/
def invokeCallback_ (w : World) (e : Entry) (state : PState) (result : JSVal) :
    World × Option JSVal :=
  if state = PState.FULFILLED then invokeFn w e.onFulfilled result
  else
    match e.onRejected with
    | some f => invokeFn w f result
    | none => (w, none)

/-- `executeCallback_` (lines 1206-1231).  `pid` is the promise the entry was
queued on (the `this` of the call).  The default rejection reporter
`async.throwException` is modelled by appending to `reported`. -/
def executeCallback_ (w : World) (pid : Nat) (e : Entry) (state : PState)
    (result : JSVal) : World × Option JSVal :=
  let w :=
    if state = PState.REJECTED ∧ e.onRejected.isSome ∧ ¬ e.always then
      removeUnhandledRejection_ w pid
    else w
  match e.child with
  | some c =>
      let w := modifyP w c (fun p => { p with parent := none })
      invokeCallback_ w e state result
  | none =>
      let r :=
        if e.always then invokeFn w e.onFulfilled JSVal.undef
        else invokeCallback_ w e state result
      match r with
      | (w, some err) => ({ w with reported := w.reported ++ [err] }, none)
      | (w, none) => (w, none)

/-- `executeCallbacks_` (lines 1186-1192): drain the queue, reading the state
and result afresh for each entry; entries appended during the drain are
processed in the same pass.  An exception escaping an entry's execution aborts
the loop (and is returned), exactly as a JS throw would. -/
def executeCallbacks_ : Nat → World → Nat → World × Option JSVal
  | 0, w, _ => (w, none)
  | fuel + 1, w, pid =>
      match popEntry_ w pid with
      | (w, none) => (modifyP w pid (fun p => { p with executing := false }), none)
      | (w, some e) =>
          match executeCallback_ w pid e (getP w pid).state (getP w pid).result with
          | (w, some err) => (w, some err)
          | (w, none) => executeCallbacks_ fuel w pid

/-- The scan loop of `cancelChild_` (lines 811-830): count the non-`always`
entries, find the target child's entry (and thus the node before it), breaking
once the child is found and a second non-`always` entry has been counted.
Returns the count at the break point and the index of the child's entry. -/
def cancelScan (es : List Entry) (cpid : Nat) : Nat × Option Nat :=
  go es 0 0 none
where go : List Entry → Nat → Nat → Option Nat → Nat × Option Nat
  | [], _, count, found => (count, found)
  | e :: rest, i, count, found =>
      if ¬ e.always then
        let count := count + 1
        let found := if e.child = some cpid then some i else found
        if found.isSome ∧ count > 1 then (count, found)
        else go rest (i + 1) count found
      else go rest (i + 1) count found

mutual

/-- `cancelInternal_` (lines 784-794): while still pending, either delegate to
the parent's `cancelChild_` and clear the parent link, or (for a root promise)
reject directly with the cancellation error.  The fuel bounds the length of
the parent chain walked. -/
def cancelInternal_ : Nat → World → Nat → JSVal → World × Option JSVal
  | 0, w, _, _ => (w, none)
  | fuel + 1, w, pid, err =>
      if (getP w pid).state = PState.PENDING then
        match (getP w pid).parent with
        | some par =>
            let r := cancelChild_ fuel w par pid err
            (modifyP r.1 pid (fun p => { p with parent := none }), r.2)
        | none => resolve_ w pid PState.REJECTED err
      else (w, none)
termination_by fuel _ _ _ => (fuel, 0)

/-- `cancelChild_` (lines 807-849): scan the queue; if the promise is pending
and the target child is its only non-`always` child, cancel this promise too;
otherwise remove the child's entry and reject the child directly. -/
def cancelChild_ : Nat → World → Nat → Nat → JSVal → World × Option JSVal
  | fuel, w, pid, childPid, err =>
      if (getP w pid).callbackEntries = [] then (w, none)
      else
        let scan := cancelScan (getP w pid).callbackEntries childPid
        match scan.2 with
        | none => (w, none)
        | some i =>
            if (getP w pid).state = PState.PENDING ∧ scan.1 = 1 then
              cancelInternal_ fuel w pid err
            else
              let e := (getP w pid).callbackEntries.getD i default
              let w := removeEntryAt_ w pid i
              executeCallback_ w pid e PState.REJECTED err
termination_by fuel _ _ _ _ => (fuel, 1)

end

/-- `addChildPromise_` (lines 889-924): allocate the child promise whose
resolver installs the wrapped handlers, link child to parent, and queue the
entry. -/
def addChildPromise_ (w : World) (pid : Nat) (onF onR : Option UserFn) :
    World × Nat :=
  let a := newPromise w
  let w := a.1
  let childPid := a.2
  let e : Entry :=
    { child := some childPid,
      onFulfilled :=
        match onF with
        | some f => Fn.fulfillWrap f childPid
        | none => Fn.resolveTo childPid,
      onRejected :=
        some (match onR with
          | some f => Fn.rejectWrap f childPid
          | none => Fn.rejectTo childPid),
      always := false }
  let w := modifyP w childPid (fun p => { p with parent := some pid })
  let w := addCallbackEntry_ w pid e
  (w, childPid)

/-- `then` (lines 631-650).  The argument-shape validation (throwing for a
defined non-callable handler) cannot fire here because the arguments are typed
as optional callbacks. -/
def thenFn (w : World) (pid : Nat) (onF onR : Option UserFn) : World × Nat :=
  addChildPromise_ w pid onF onR

/-- `thenCatch` / `catch` (lines 744-752): `then(null, onRejected)`. -/
def thenCatch (w : World) (pid : Nat) (onR : UserFn) : World × Nat :=
  addChildPromise_ w pid none (some onR)

/-- `thenAlways` (lines 723-728): queue a settle-only `always` entry with the
same callback on both sides and return this very promise. -/
def thenAlways (w : World) (pid : Nat) (onSettled : UserFn) : World × Nat :=
  let e : Entry :=
    { child := none, onFulfilled := Fn.user onSettled,
      onRejected := some (Fn.user onSettled), always := true }
  (addCallbackEntry_ w pid e, pid)

/-- `thenVoid` with user callbacks (lines 675-697). -/
def thenVoid (w : World) (pid : Nat) (onF onR : Option UserFn) : World :=
  thenVoidFn w pid (onF.map Fn.user) (onR.map Fn.user)

/-- `CancellablePromise.resolve` (lines 405-417): a value that is already a
`CancellablePromise` is returned as is; otherwise a fresh promise is resolved
with it. -/
def staticResolve (w : World) (v : JSVal) : World × JSVal :=
  match v with
  | JSVal.promiseRef pid => (w, JSVal.promiseRef pid)
  | _ =>
      let a := newPromise w
      ((resolve_ a.1 a.2 PState.FULFILLED v).1, JSVal.promiseRef a.2)

/-- `CancellablePromise.reject` (lines 425-429): the constructor runs the
resolver inside try/catch, so a throw out of `resolve_` feeds back into a
second (no-op, since the state is no longer pending) rejection. -/
def staticReject (w : World) (reason : JSVal) : World × Nat :=
  let a := newPromise w
  match resolve_ a.1 a.2 PState.REJECTED reason with
  | (w, some e) => ((resolve_ w a.2 PState.REJECTED e).1, a.2)
  | (w, none) => (w, a.2)

/-- `resolveThen_` (lines 444-449): subscribe when the value is thenable,
otherwise schedule a direct call of the fulfillment callback. -/
def resolveThen_ (w : World) (value : JSVal) (onF onR : Fn) : World :=
  let r := maybeThen_ w value onF onR
  if r.2 then r.1 else pushTask r.1 (Task.callFn onF value)

/-- `CancellablePromise.firstFulfilled` (lines 570-597).  The constructor runs
the resolver synchronously: an empty input list fulfills with `undefined`;
otherwise a cell captures `toReject`/`reasons` and every input is wired with
`resolveThen_`. -/
def firstFulfilled (w : World) (inputs : List JSVal) : World × Nat :=
  let a := newPromise w
  let w := a.1
  let pid := a.2
  if inputs.length = 0 then
    ((resolve_ w pid PState.FULFILLED JSVal.undef).1, pid)
  else
    let cid := w.cells.length
    let w := { w with cells := w.cells ++
      [⟨pid, inputs.length, List.replicate inputs.length none⟩] }
    (wire w inputs cid 0, pid)
where wire : World → List JSVal → Nat → Nat → World
  | w, [], _, _ => w
  | w, v :: vs, cid, i =>
      wire (resolveThen_ w v (Fn.ffFulfill cid) (Fn.ffReject cid i)) vs cid (i + 1)

/-- `cancel` (lines 767-775): when still pending, schedule the construction of
the cancellation error and the internal cancellation. -/
def cancel (w : World) (pid : Nat) (msg : Option String) : World :=
  if (getP w pid).state = PState.PENDING then
    pushTask w (Task.runCancel pid msg)
  else w

/-- Total number of queued callback entries, used to bound drain fuel. -/
def totalEntries (w : World) : Nat :=
  (w.promises.map (fun p => p.callbackEntries.length)).sum

def drainFuel (w : World) : Nat := totalEntries w + w.promises.length + 2

def chainFuel (w : World) : Nat := w.promises.length + 1

/-- Execute one scheduled task.  An exception escaping a task would surface on
the scheduler's stack (`window.onerror`); it is recorded in `uncaught`. -/
def runTask (w : World) (t : Task) : World :=
  match t with
  | Task.execCallbacks pid =>
      match executeCallbacks_ (drainFuel w) w pid with
      | (w, some e) => { w with uncaught := w.uncaught ++ [e] }
      | (w, none) => w
  | Task.runCancel pid msg =>
      match cancelInternal_ (chainFuel w) w pid (JSVal.cancelErr msg) with
      | (w, some e) => { w with uncaught := w.uncaught ++ [e] }
      | (w, none) => w
  | Task.unhandledCheck pid reason =>
      if (getP w pid).hadUnhandledRejection then
        { w with reported := w.reported ++ [reason] }
      else w
  | Task.callFn f arg =>
      match invokeFn w f arg with
      | (w, some e) => { w with uncaught := w.uncaught ++ [e] }
      | (w, none) => w

/-- The scheduler loop: process up to `fuel` tasks in FIFO order. -/
def run : Nat → World → World
  | 0, w => w
  | fuel + 1, w =>
      match w.tasks with
      | [] => w
      | t :: ts => run fuel (runTask { w with tasks := ts } t)

/-! ### Value-classification predicates and basic rewriting lemmas -/

/-- An ordinary rejection reason: not nullish (so the cancellation-marker
access succeeds), not a cancellation error, and not thenable. -/
def plainReason : JSVal → Bool
  | JSVal.undef => false
  | JSVal.jnull => false
  | JSVal.promiseRef _ => false
  | JSVal.cancelErr _ => false
  | _ => true

/-- A value the resolution procedure treats as non-thenable. -/
def notThenable : JSVal → Bool
  | JSVal.promiseRef _ => false
  | _ => true

theorem selfCheck_notThenable {x : JSVal} (h : notThenable x = true)
    (pid : Nat) (s : PState) : selfCheck pid s x = (s, x) := by
  cases x <;> simp_all [selfCheck, notThenable]

theorem maybeThen_notThenable {x : JSVal} (h : notThenable x = true)
    (w : World) (onF onR : Fn) : maybeThen_ w x onF onR = (w, false) := by
  cases x <;> simp_all [maybeThen_, notThenable]

theorem markerProp_plain {x : JSVal} (h : plainReason x = true) :
    markerProp x = Except.ok false := by
  cases x <;> simp_all [markerProp, plainReason]

theorem notThenable_of_plain {x : JSVal} (h : plainReason x = true) :
    notThenable x = true := by
  cases x <;> simp_all [plainReason, notThenable]

/-! ### Heap-access algebra -/

theorem getP_setP_self {w : World} {pid : Nat} (h : pid < w.promises.length)
    (p : PromiseObj) : getP (setP w pid p) pid = p := by
  simp [getP, setP, List.getD, List.getElem?_set_self, h]

theorem getP_setP_ne {w : World} {pid q : Nat} (h : pid ≠ q)
    (p : PromiseObj) : getP (setP w pid p) q = getP w q := by
  simp [getP, setP, List.getD, List.getElem?_set_ne, h]

theorem getP_modifyP_self {w : World} {pid : Nat} (h : pid < w.promises.length)
    (f : PromiseObj → PromiseObj) :
    getP (modifyP w pid f) pid = f (getP w pid) := by
  simp [modifyP, getP_setP_self h]

theorem getP_modifyP_ne {w : World} {pid q : Nat} (h : pid ≠ q)
    (f : PromiseObj → PromiseObj) : getP (modifyP w pid f) q = getP w q := by
  simp [modifyP, getP_setP_ne h]

@[simp] theorem length_setP (w : World) (pid : Nat) (p : PromiseObj) :
    (setP w pid p).promises.length = w.promises.length := by
  simp [setP]

@[simp] theorem length_modifyP (w : World) (pid : Nat) (f : PromiseObj → PromiseObj) :
    (modifyP w pid f).promises.length = w.promises.length := by
  simp [modifyP]

@[simp] theorem getP_pushTask (w : World) (t : Task) (q : Nat) :
    getP (pushTask w t) q = getP w q := rfl

@[simp] theorem tasks_setP (w : World) (pid : Nat) (p : PromiseObj) :
    (setP w pid p).tasks = w.tasks := rfl

@[simp] theorem tasks_modifyP (w : World) (pid : Nat) (f : PromiseObj → PromiseObj) :
    (modifyP w pid f).tasks = w.tasks := rfl

@[simp] theorem tasks_pushTask (w : World) (t : Task) :
    (pushTask w t).tasks = w.tasks ++ [t] := rfl

@[simp] theorem trace_setP (w : World) (pid : Nat) (p : PromiseObj) :
    (setP w pid p).trace = w.trace := rfl

@[simp] theorem trace_modifyP (w : World) (pid : Nat) (f : PromiseObj → PromiseObj) :
    (modifyP w pid f).trace = w.trace := rfl

@[simp] theorem trace_pushTask (w : World) (t : Task) :
    (pushTask w t).trace = w.trace := rfl

@[simp] theorem reported_setP (w : World) (pid : Nat) (p : PromiseObj) :
    (setP w pid p).reported = w.reported := rfl

@[simp] theorem reported_modifyP (w : World) (pid : Nat) (f : PromiseObj → PromiseObj) :
    (modifyP w pid f).reported = w.reported := rfl

@[simp] theorem reported_pushTask (w : World) (t : Task) :
    (pushTask w t).reported = w.reported := rfl

@[simp] theorem promises_pushTask (w : World) (t : Task) :
    (pushTask w t).promises = w.promises := rfl

@[simp] theorem cells_setP (w : World) (pid : Nat) (p : PromiseObj) :
    (setP w pid p).cells = w.cells := rfl

@[simp] theorem cells_modifyP (w : World) (pid : Nat) (f : PromiseObj → PromiseObj) :
    (modifyP w pid f).cells = w.cells := rfl

@[simp] theorem cells_pushTask (w : World) (t : Task) :
    (pushTask w t).cells = w.cells := rfl

@[simp] theorem uncaught_setP (w : World) (pid : Nat) (p : PromiseObj) :
    (setP w pid p).uncaught = w.uncaught := rfl

@[simp] theorem uncaught_modifyP (w : World) (pid : Nat) (f : PromiseObj → PromiseObj) :
    (modifyP w pid f).uncaught = w.uncaught := rfl

@[simp] theorem uncaught_pushTask (w : World) (t : Task) :
    (pushTask w t).uncaught = w.uncaught := rfl

theorem modifyP_modifyP {w : World} {pid : Nat} (h : pid < w.promises.length)
    (f g : PromiseObj → PromiseObj) :
    modifyP (modifyP w pid f) pid g = modifyP w pid (fun p => g (f p)) := by
  simp only [modifyP]
  rw [getP_setP_self h]
  simp [setP, List.set_set]

/-- Effect of `scheduleCallbacks_` on the scheduled promise. -/
theorem getP_scheduleCallbacks_self {w : World} {pid : Nat}
    (h : pid < w.promises.length) :
    getP (scheduleCallbacks_ w pid) pid =
      if (getP w pid).executing then getP w pid
      else { getP w pid with executing := true } := by
  unfold scheduleCallbacks_
  split <;> simp_all [getP_modifyP_self h]

theorem getP_scheduleCallbacks_ne {w : World} {pid q : Nat} (h : pid ≠ q) :
    getP (scheduleCallbacks_ w pid) q = getP w q := by
  unfold scheduleCallbacks_
  split <;> simp_all [getP_modifyP_ne h]

theorem tasks_scheduleCallbacks (w : World) (pid : Nat) :
    (scheduleCallbacks_ w pid).tasks =
      if (getP w pid).executing then w.tasks
      else w.tasks ++ [Task.execCallbacks pid] := by
  unfold scheduleCallbacks_
  split <;> simp_all

@[simp] theorem length_scheduleCallbacks (w : World) (pid : Nat) :
    (scheduleCallbacks_ w pid).promises.length = w.promises.length := by
  unfold scheduleCallbacks_
  split <;> simp

@[simp] theorem trace_scheduleCallbacks (w : World) (pid : Nat) :
    (scheduleCallbacks_ w pid).trace = w.trace := by
  unfold scheduleCallbacks_
  split <;> simp

@[simp] theorem reported_scheduleCallbacks (w : World) (pid : Nat) :
    (scheduleCallbacks_ w pid).reported = w.reported := by
  unfold scheduleCallbacks_
  split <;> simp

/-- Effect of the delay-0 `addUnhandledRejection_`. -/
theorem getP_addUR_self {w : World} {pid : Nat} (h : pid < w.promises.length)
    (r : JSVal) :
    getP (addUnhandledRejection_ w pid r) pid =
      { getP w pid with hadUnhandledRejection := true } := by
  simp [addUnhandledRejection_, getP_modifyP_self h]

theorem getP_addUR_ne {w : World} {pid q : Nat} (h : pid ≠ q) (r : JSVal) :
    getP (addUnhandledRejection_ w pid r) q = getP w q := by
  simp [addUnhandledRejection_, getP_modifyP_ne h]

@[simp] theorem tasks_addUR (w : World) (pid : Nat) (r : JSVal) :
    (addUnhandledRejection_ w pid r).tasks = w.tasks ++ [Task.unhandledCheck pid r] := by
  simp [addUnhandledRejection_]

@[simp] theorem length_addUR (w : World) (pid : Nat) (r : JSVal) :
    (addUnhandledRejection_ w pid r).promises.length = w.promises.length := by
  simp [addUnhandledRejection_]

@[simp] theorem trace_addUR (w : World) (pid : Nat) (r : JSVal) :
    (addUnhandledRejection_ w pid r).trace = w.trace := by
  simp [addUnhandledRejection_]

@[simp] theorem reported_addUR (w : World) (pid : Nat) (r : JSVal) :
    (addUnhandledRejection_ w pid r).reported = w.reported := by
  simp [addUnhandledRejection_]

/-- Normal form of `resolve_` for a pending promise settled with a
non-thenable value that is not the promise itself. -/
theorem resolve_settle {w : World} {pid : Nat} {s : PState} {x : JSVal}
    (h : pid < w.promises.length)
    (hpend : (getP w pid).state = PState.PENDING)
    (hnt : notThenable x = true)
    (hsc : selfCheck pid s x = (s, x)) :
    resolve_ w pid s x =
      (let w3 := scheduleCallbacks_
        (modifyP w pid fun p =>
          { p with result := x, state := s, parent := none }) pid
      if s = PState.REJECTED then
        match markerProp x with
        | Except.error e => (w3, some e)
        | Except.ok true => (w3, none)
        | Except.ok false => (addUnhandledRejection_ w3 pid x, none)
      else (w3, none)) := by
  rw [resolve_]
  simp only [hpend, ne_eq, not_true_eq_false, if_false, hsc,
    maybeThen_notThenable hnt, if_neg (Bool.false_ne_true), ite_false,
    modifyP_modifyP h]

@[simp] theorem getP_setTrace (w : World) (t : List (Nat × JSVal)) (q : Nat) :
    getP { w with trace := t } q = getP w q := rfl

/-- The world shape produced by settling promise `pid` with state `s` and
result `x`: the promise after `modifyP` + `scheduleCallbacks_`. -/
def settledW (w : World) (pid : Nat) (s : PState) (x : JSVal) : World :=
  scheduleCallbacks_
    (modifyP w pid fun p => { p with result := x, state := s, parent := none }) pid

theorem getP_settledW_self {w : World} {pid : Nat} (h : pid < w.promises.length)
    (s : PState) (x : JSVal) :
    getP (settledW w pid s x) pid =
      { getP w pid with result := x, state := s, parent := none, executing := true } := by
  unfold settledW
  rw [getP_scheduleCallbacks_self (by simpa using h)]
  rw [getP_modifyP_self h]
  split <;> simp_all

theorem getP_settledW_ne {w : World} {pid q : Nat} (h : pid ≠ q)
    (s : PState) (x : JSVal) :
    getP (settledW w pid s x) q = getP w q := by
  unfold settledW
  rw [getP_scheduleCallbacks_ne h, getP_modifyP_ne h]

theorem tasks_settledW {w : World} {pid : Nat} (h : pid < w.promises.length)
    (s : PState) (x : JSVal) :
    (settledW w pid s x).tasks =
      if (getP w pid).executing then w.tasks
      else w.tasks ++ [Task.execCallbacks pid] := by
  unfold settledW
  rw [tasks_scheduleCallbacks, getP_modifyP_self h]
  split <;> simp_all

@[simp] theorem length_settledW (w : World) (pid : Nat) (s : PState) (x : JSVal) :
    (settledW w pid s x).promises.length = w.promises.length := by
  simp [settledW]

@[simp] theorem trace_settledW (w : World) (pid : Nat) (s : PState) (x : JSVal) :
    (settledW w pid s x).trace = w.trace := by
  simp [settledW]

@[simp] theorem reported_settledW (w : World) (pid : Nat) (s : PState) (x : JSVal) :
    (settledW w pid s x).reported = w.reported := by
  simp [settledW]

@[simp] theorem cells_settledW (w : World) (pid : Nat) (s : PState) (x : JSVal) :
    (settledW w pid s x).cells = w.cells := by
  simp [settledW, scheduleCallbacks_]
  split <;> simp

/-- Rejecting a pending promise with an ordinary (non-cancellation,
non-nullish, non-thenable) reason settles it and registers the unhandled
rejection. -/
theorem resolve_reject_plain {w : World} {pid : Nat} {r : JSVal}
    (h : pid < w.promises.length)
    (hpend : (getP w pid).state = PState.PENDING)
    (hr : plainReason r = true) :
    resolve_ w pid PState.REJECTED r =
      (addUnhandledRejection_ (settledW w pid PState.REJECTED r) pid r, none) := by
  have hnt := notThenable_of_plain hr
  rw [resolve_settle h hpend hnt (selfCheck_notThenable hnt pid _)]
  simp [markerProp_plain hr, settledW]

/-- Rejecting a pending promise with a cancellation error settles it without
registering an unhandled rejection. -/
theorem resolve_reject_cancel {w : World} {pid : Nat} {m : Option String}
    (h : pid < w.promises.length)
    (hpend : (getP w pid).state = PState.PENDING) :
    resolve_ w pid PState.REJECTED (JSVal.cancelErr m) =
      (settledW w pid PState.REJECTED (JSVal.cancelErr m), none) := by
  rw [resolve_settle h hpend (by simp [notThenable])
    (selfCheck_notThenable (by simp [notThenable]) pid _)]
  simp [markerProp, settledW]

/-- Fulfilling a pending promise with a non-thenable value settles it. -/
theorem resolve_fulfill_nt {w : World} {pid : Nat} {v : JSVal}
    (h : pid < w.promises.length)
    (hpend : (getP w pid).state = PState.PENDING)
    (hnt : notThenable v = true) :
    resolve_ w pid PState.FULFILLED v =
      (settledW w pid PState.FULFILLED v, none) := by
  rw [resolve_settle h hpend hnt (selfCheck_notThenable hnt pid _)]
  simp [settledW]

@[simp] theorem isDef_undef : isDef JSVal.undef = false := rfl

@[simp] theorem trace_addCallbackEntry (w : World) (pid : Nat) (e : Entry) :
    (addCallbackEntry_ w pid e).trace = w.trace := by
  simp only [addCallbackEntry_, queueEntry_]
  split <;> simp

@[simp] theorem reported_addCallbackEntry (w : World) (pid : Nat) (e : Entry) :
    (addCallbackEntry_ w pid e).reported = w.reported := by
  simp only [addCallbackEntry_, queueEntry_]
  split <;> simp

@[simp] theorem trace_newPromise (w : World) : (newPromise w).1.trace = w.trace := rfl

@[simp] theorem reported_newPromise (w : World) :
    (newPromise w).1.reported = w.reported := rfl

theorem trace_addChildPromise (w : World) (pid : Nat) (onF onR : Option UserFn) :
    (addChildPromise_ w pid onF onR).1.trace = w.trace := by
  simp [addChildPromise_, newPromise, modifyP, setP]

theorem reported_addChildPromise (w : World) (pid : Nat) (onF onR : Option UserFn) :
    (addChildPromise_ w pid onF onR).1.reported = w.reported := by
  simp [addChildPromise_, newPromise, modifyP, setP]

/-! ### Scenario worlds used by the claim theorems -/

/-- A fresh pending promise (id 0) with a fulfillment handler registered via
`then` (child id 1), then resolved with `'foo'` and, redundantly, `'bar'`. -/
def c1World : World :=
  let w := (newPromise {}).1
  let w := (thenFn w 0 (some (UserFn.const 1 JSVal.undef)) none).1
  let w := (resolve_ w 0 PState.FULFILLED (JSVal.str "foo")).1
  (resolve_ w 0 PState.FULFILLED (JSVal.str "bar")).1

/-- A fresh promise (id 0) rejected with reason `r`, no handler attached. -/
def c4aWorld (r : JSVal) : World := (staticReject {} r).1

/-- The same rejected promise with a rejection handler attached (synchronously,
before any scheduled task has run). -/
def c4bWorld (r : JSVal) : World :=
  (thenCatch (c4aWorld r) 0 (UserFn.const 2 JSVal.undef)).1

/-- A promise (id 0) fulfilled with `'v'` and run to quiescence: a settled
promise with an empty queue and an idle scheduler. -/
def c6Settled : World :=
  run 10 ((resolve_ ((newPromise {}).1) 0 PState.FULFILLED (JSVal.str "v")).1)

/-- Registration of a fulfillment handler on the already-settled `c6Settled`. -/
def c6Reg : World :=
  (thenFn c6Settled 0 (some (UserFn.const 5 JSVal.undef)) none).1

/-! ### Claim theorems -/

/-- C1: settlement is exactly-once and immutable.  First conjunct: `resolve_`
(the single entry point for both `resolve` and `reject`) is a strict no-op —
the world is returned unchanged — whenever the promise is no longer PENDING,
so once a promise is FULFILLED or REJECTED (or BLOCKED on an inner thenable)
no later resolve/reject call changes its state or result.  The remaining
conjuncts run the spec's example: resolving with `'foo'` and then `'bar'`
delivers exactly one fulfillment callback invocation, with `'foo'`, and leaves
the promise fulfilled with `'foo'`. -/
theorem C1_settlement_exactly_once :
    (∀ (w : World) (pid : Nat) (s : PState) (x : JSVal),
        (getP w pid).state ≠ PState.PENDING → resolve_ w pid s x = (w, none))
    ∧ (run 10 c1World).trace = [(1, JSVal.str "foo")]
    ∧ (getP (run 10 c1World) 0).state = PState.FULFILLED
    ∧ (getP (run 10 c1World) 0).result = JSVal.str "foo" := by
  refine ⟨fun w pid s x h => by simp [resolve_, h], ?_, ?_, ?_⟩ <;>
    simp [c1World, run, runTask, thenFn, addChildPromise_, newPromise,
      addCallbackEntry_, queueEntry_, hasEntry_, scheduleCallbacks_, pushTask,
      modifyP, setP, getP, List.getD, resolve_, selfCheck, maybeThen_, markerProp,
      addUnhandledRejection_, removeUnhandledRejection_, removeURAux,
      executeCallbacks_, executeCallback_, invokeCallback_, invokeFn, runUser,
      popEntry_, drainFuel, totalEntries, thenVoidFn, isDef]

/-- C1 witness: the no-op conjunct applied to the settled promise of the
scenario — a further `resolve` call with `'zzz'` returns the world unchanged. -/
theorem C1_settlement_exactly_once_witness :
    resolve_ (run 10 c1World) 0 PState.FULFILLED (JSVal.str "zzz")
      = (run 10 c1World, none) :=
  C1_settlement_exactly_once.1 _ 0 _ _ (by
    simp [c1World, run, runTask, thenFn, addChildPromise_, newPromise,
      addCallbackEntry_, queueEntry_, hasEntry_, scheduleCallbacks_, pushTask,
      modifyP, setP, getP, List.getD, resolve_, selfCheck, maybeThen_, markerProp,
      addUnhandledRejection_, removeUnhandledRejection_, removeURAux,
      executeCallbacks_, executeCallback_, invokeCallback_, invokeFn, runUser,
      popEntry_, drainFuel, totalEntries, thenVoidFn, isDef])

/-- C4: same-tick unhandled-rejection reporting (the model fixes the delay at
its source value 0).  For every ordinary reason `r`: rejecting a promise with
no rejection handler invokes the reporter exactly once, with `r`; attaching a
rejection handler before the scheduled check runs means the reporter is never
invoked (and the handler receives `r` instead). -/
theorem C4_unhandled_rejection_reporting (r : JSVal) (hr : plainReason r = true) :
    (run 10 (c4aWorld r)).reported = [r]
    ∧ (run 10 (c4bWorld r)).reported = []
    ∧ (run 10 (c4bWorld r)).trace = [(2, r)] := by
  cases r
  case undef => simp [plainReason] at hr
  case jnull => simp [plainReason] at hr
  case promiseRef => simp [plainReason] at hr
  case cancelErr => simp [plainReason] at hr
  all_goals refine ⟨?_, ?_, ?_⟩ <;>
    simp [c4aWorld, c4bWorld, run, runTask, staticReject, thenCatch,
      addChildPromise_, newPromise, addCallbackEntry_, queueEntry_, hasEntry_,
      scheduleCallbacks_, pushTask, modifyP, setP, getP, List.getD, resolve_,
      selfCheck, maybeThen_, markerProp, addUnhandledRejection_,
      removeUnhandledRejection_, removeURAux, executeCallbacks_,
      executeCallback_, invokeCallback_, invokeFn, runUser, popEntry_,
      drainFuel, totalEntries, thenVoidFn, isDef]

/-- C4 witness at the concrete reason `'boom'`. -/
theorem C4_unhandled_rejection_reporting_witness :
    (run 10 (c4aWorld (JSVal.str "boom"))).reported = [JSVal.str "boom"]
    ∧ (run 10 (c4bWorld (JSVal.str "boom"))).reported = [] :=
  ⟨(C4_unhandled_rejection_reporting (JSVal.str "boom") rfl).1,
   (C4_unhandled_rejection_reporting (JSVal.str "boom") rfl).2.1⟩

/-- C5: a chained rejection handler invoked with a cancellation error.  If the
handler returns no value (the `undefined` result), the child promise is
rejected with the very same cancellation error; if it returns any defined
(non-thenable) value `v`, the child is fulfilled with `v` instead.
`Fn.rejectWrap f child` is exactly the `onRejected` wrapper that
`addChildPromise_` installs around a user rejection handler `f`. -/
theorem C5_cancellation_stops_at_value_returning_handler
    (w : World) (child : Nat) (id : Nat) (m : Option String) (v : JSVal)
    (hlt : child < w.promises.length)
    (hpend : (getP w child).state = PState.PENDING) :
    ((getP (invokeFn w (Fn.rejectWrap (UserFn.const id JSVal.undef) child)
        (JSVal.cancelErr m)).1 child).state = PState.REJECTED
     ∧ (getP (invokeFn w (Fn.rejectWrap (UserFn.const id JSVal.undef) child)
        (JSVal.cancelErr m)).1 child).result = JSVal.cancelErr m)
    ∧ (v ≠ JSVal.undef → notThenable v = true →
       (getP (invokeFn w (Fn.rejectWrap (UserFn.const id v) child)
          (JSVal.cancelErr m)).1 child).state = PState.FULFILLED
       ∧ (getP (invokeFn w (Fn.rejectWrap (UserFn.const id v) child)
          (JSVal.cancelErr m)).1 child).result = v) := by
  constructor
  · simp only [invokeFn, runUser]
    have hset : resolve_ { w with trace := w.trace ++ [(id, JSVal.cancelErr m)] }
        child PState.REJECTED (JSVal.cancelErr m)
        = (settledW { w with trace := w.trace ++ [(id, JSVal.cancelErr m)] }
            child PState.REJECTED (JSVal.cancelErr m), none) :=
      resolve_reject_cancel (by simpa using hlt) (by simpa using hpend)
    rw [hset]
    simp only [isDef_undef, Bool.false_eq_true, not_false_eq_true, if_true, markerProp]
    rw [getP_settledW_self (by simpa using hlt)]
    simp
  · intro hv hnt
    have hdef : isDef v = true := by
      cases v <;> simp_all [isDef]
    simp only [invokeFn, runUser, hdef, not_true, if_false]
    have hset : resolve_ { w with trace := w.trace ++ [(id, JSVal.cancelErr m)] }
        child PState.FULFILLED v
        = (settledW { w with trace := w.trace ++ [(id, JSVal.cancelErr m)] }
            child PState.FULFILLED v, none) :=
      resolve_fulfill_nt (by simpa using hlt) (by simpa using hpend) hnt
    rw [hset]
    rw [getP_settledW_self (by simpa using hlt)]
    simp

/-- C5 witness: a fresh pending child, handler id 3, message `'c'`, and the
defined return value `'v'`. -/
theorem C5_cancellation_stops_at_value_returning_handler_witness :
    ((getP (invokeFn (newPromise {}).1 (Fn.rejectWrap (UserFn.const 3 JSVal.undef) 0)
        (JSVal.cancelErr (some "c"))).1 0).state = PState.REJECTED
     ∧ (getP (invokeFn (newPromise {}).1 (Fn.rejectWrap (UserFn.const 3 JSVal.undef) 0)
        (JSVal.cancelErr (some "c"))).1 0).result = JSVal.cancelErr (some "c"))
    ∧ (JSVal.str "v" ≠ JSVal.undef → notThenable (JSVal.str "v") = true →
       (getP (invokeFn (newPromise {}).1 (Fn.rejectWrap (UserFn.const 3 (JSVal.str "v")) 0)
          (JSVal.cancelErr (some "c"))).1 0).state = PState.FULFILLED
       ∧ (getP (invokeFn (newPromise {}).1 (Fn.rejectWrap (UserFn.const 3 (JSVal.str "v")) 0)
          (JSVal.cancelErr (some "c"))).1 0).result = JSVal.str "v") :=
  C5_cancellation_stops_at_value_returning_handler
    (newPromise {}).1 0 3 (some "c") (JSVal.str "v") (by decide) (by decide)

/-- C6: a `then`-family registration call returns before any handler runs.
The general conjuncts show that `then`, `thenCatch`, `thenAlways` and
`thenVoid` leave the invocation trace and the reporter log unchanged on every
world — no handler (and no reporter call) ever executes during registration.
The scenario conjuncts register a handler on an already-settled promise: the
registration itself still produces no handler invocation and merely places a
drain task on the external scheduler, and only running that scheduled task
delivers the result. -/
theorem C6_registration_never_calls_handlers_inline :
    (∀ (w : World) (pid : Nat) (onF onR : Option UserFn),
        (thenFn w pid onF onR).1.trace = w.trace
        ∧ (thenFn w pid onF onR).1.reported = w.reported)
    ∧ (∀ (w : World) (pid : Nat) (f : UserFn),
        (thenCatch w pid f).1.trace = w.trace
        ∧ (thenCatch w pid f).1.reported = w.reported)
    ∧ (∀ (w : World) (pid : Nat) (f : UserFn),
        (thenAlways w pid f).1.trace = w.trace
        ∧ (thenAlways w pid f).1.reported = w.reported)
    ∧ (∀ (w : World) (pid : Nat) (onF onR : Option UserFn),
        (thenVoid w pid onF onR).trace = w.trace
        ∧ (thenVoid w pid onF onR).reported = w.reported)
    ∧ (getP c6Settled 0).state = PState.FULFILLED
    ∧ c6Reg.trace = []
    ∧ c6Reg.tasks = [Task.execCallbacks 0]
    ∧ (run 10 c6Reg).trace = [(5, JSVal.str "v")] := by
  refine ⟨fun w pid onF onR => ⟨trace_addChildPromise .., reported_addChildPromise ..⟩,
    fun w pid f => ⟨trace_addChildPromise .., reported_addChildPromise ..⟩,
    fun w pid f => ⟨by simp [thenAlways], by simp [thenAlways]⟩,
    fun w pid onF onR => ⟨by simp [thenVoid, thenVoidFn], by simp [thenVoid, thenVoidFn]⟩,
    ?_, ?_, ?_, ?_⟩ <;>
    simp [c6Settled, c6Reg, run, runTask, thenFn, addChildPromise_, newPromise,
      addCallbackEntry_, queueEntry_, hasEntry_, scheduleCallbacks_, pushTask,
      modifyP, setP, getP, List.getD, resolve_, selfCheck, maybeThen_, markerProp,
      addUnhandledRejection_, removeUnhandledRejection_, removeURAux,
      executeCallbacks_, executeCallback_, invokeCallback_, invokeFn, runUser,
      popEntry_, drainFuel, totalEntries, thenVoidFn, isDef]

/-- C8: `CancellablePromise.resolve` applied to a value that is already a
`CancellablePromise` returns that very instance — the heap is untouched (no
new promise is allocated) and the returned reference is the argument itself. -/
theorem C8_static_resolve_is_identity_on_promises (w : World) (pid : Nat) :
    staticResolve w (JSVal.promiseRef pid) = (w, JSVal.promiseRef pid) := rfl

/-- C9: rejecting a pending promise with a nullish reason (here `null` or
`undefined`) first records the rejected state and result, then hits the
unguarded `x.IS_CANCELLATION_ERROR` access, so the reject call throws a
`TypeError` after the promise is already REJECTED, and the rejection is never
registered for unhandled-rejection tracking (the same-tick flag is not set and
no check task is scheduled). -/
theorem C9_nullish_rejection_throws_after_settling
    (w : World) (pid : Nat) (r : JSVal)
    (hlt : pid < w.promises.length)
    (hpend : (getP w pid).state = PState.PENDING)
    (hnull : nullish r = true) :
    (∃ msg, (resolve_ w pid PState.REJECTED r).2 = some (JSVal.errObj "TypeError" msg))
    ∧ (getP (resolve_ w pid PState.REJECTED r).1 pid).state = PState.REJECTED
    ∧ (getP (resolve_ w pid PState.REJECTED r).1 pid).result = r
    ∧ (getP (resolve_ w pid PState.REJECTED r).1 pid).hadUnhandledRejection
        = (getP w pid).hadUnhandledRejection
    ∧ (∀ (q : Nat) (reason : JSVal),
        Task.unhandledCheck q reason ∈ (resolve_ w pid PState.REJECTED r).1.tasks →
        Task.unhandledCheck q reason ∈ w.tasks) := by
  have hnt : notThenable r = true := by cases r <;> simp_all [nullish, notThenable]
  have hsc : selfCheck pid PState.REJECTED r = (PState.REJECTED, r) :=
    selfCheck_notThenable hnt pid _
  have hmk : ∃ msg, markerProp r = Except.error (JSVal.errObj "TypeError" msg) := by
    cases r <;> simp_all [markerProp, nullish]
  obtain ⟨msg, hmsg⟩ := hmk
  rw [resolve_settle hlt hpend hnt hsc]
  simp only [hmsg, if_true]
  refine ⟨⟨msg, rfl⟩, ?_, ?_, ?_, ?_⟩
  · rw [getP_scheduleCallbacks_self (by simpa using hlt)]
    split <;> simp [getP_modifyP_self hlt]
  · rw [getP_scheduleCallbacks_self (by simpa using hlt)]
    split <;> simp [getP_modifyP_self hlt]
  · rw [getP_scheduleCallbacks_self (by simpa using hlt)]
    split <;> simp [getP_modifyP_self hlt]
  · intro q reason hmem
    rw [tasks_scheduleCallbacks] at hmem
    revert hmem
    split <;> simp_all

/-- C9 witness: a fresh pending promise rejected with `null`. -/
theorem C9_nullish_rejection_throws_after_settling_witness :
    (∃ msg, (resolve_ (newPromise {}).1 0 PState.REJECTED JSVal.jnull).2
        = some (JSVal.errObj "TypeError" msg))
    ∧ (getP (resolve_ (newPromise {}).1 0 PState.REJECTED JSVal.jnull).1 0).state
        = PState.REJECTED
    ∧ (getP (resolve_ (newPromise {}).1 0 PState.REJECTED JSVal.jnull).1 0).result
        = JSVal.jnull
    ∧ (getP (resolve_ (newPromise {}).1 0 PState.REJECTED JSVal.jnull).1 0).hadUnhandledRejection
        = (getP (newPromise {}).1 0).hadUnhandledRejection
    ∧ (∀ (q : Nat) (reason : JSVal),
        Task.unhandledCheck q reason ∈ (resolve_ (newPromise {}).1 0 PState.REJECTED JSVal.jnull).1.tasks →
        Task.unhandledCheck q reason ∈ (newPromise {}).1.tasks) :=
  C9_nullish_rejection_throws_after_settling (newPromise {}).1 0 JSVal.jnull
    (by decide) (by decide) (by decide)

/-- C10: `thenAlways` returns the promise it was called on — the returned id
is the receiver's id and no new promise is allocated — so chaining after it
continues to operate on the original promise. -/
theorem C10_thenAlways_returns_receiver (w : World) (pid : Nat) (f : UserFn) :
    (thenAlways w pid f).2 = pid
    ∧ (thenAlways w pid f).1.promises.length = w.promises.length := by
  refine ⟨rfl, ?_⟩
  simp only [thenAlways, addCallbackEntry_, queueEntry_]
  split <;> simp

/-! ### C7: `firstFulfilled` with every input rejecting -/

@[simp] theorem getP_setCell (w : World) (cid : Nat) (c : FFCell) (q : Nat) :
    getP (setCell w cid c) q = getP w q := rfl

@[simp] theorem length_setCell (w : World) (cid : Nat) (c : FFCell) :
    (setCell w cid c).promises.length = w.promises.length := rfl

/-- The callback entry `firstFulfilled` registers on input `i` via
`resolveThen_`/`thenVoid` (combinator cell 0). -/
def ffEntry (i : Nat) : Entry :=
  { child := none, onFulfilled := Fn.ffFulfill 0,
    onRejected := some (Fn.ffReject 0 i), always := false }

/-- Three fresh pending input promises (ids 0,1,2) wired into
`firstFulfilled`; the result promise has id 3 and combinator cell id 0. -/
def c7Base : World :=
  let w := (newPromise {}).1
  let w := (newPromise w).1
  let w := (newPromise w).1
  (firstFulfilled w [JSVal.promiseRef 0, JSVal.promiseRef 1, JSVal.promiseRef 2]).1

/-- Inputs are rejected out of input order — 1 first, then 0, then 2 — with
the scheduler run to quiescence after each rejection. -/
def c7wA (r1 : JSVal) : World := run 6 ((resolve_ c7Base 1 PState.REJECTED r1).1)

def c7wB (r1 r0 : JSVal) : World := run 6 ((resolve_ (c7wA r1) 0 PState.REJECTED r0).1)

def c7wC (r1 r0 r2 : JSVal) : World :=
  run 8 ((resolve_ (c7wB r1 r0) 2 PState.REJECTED r2).1)

theorem c7Base_eq : c7Base =
    { promises := [{ callbackEntries := [ffEntry 0] }, { callbackEntries := [ffEntry 1] },
                   { callbackEntries := [ffEntry 2] }, {}],
      cells := [⟨3, 3, [none, none, none]⟩] } := by rfl

set_option maxHeartbeats 1600000 in
theorem c7wA_eq (r1 : JSVal) (h1 : plainReason r1 = true) :
    c7wA r1 = { promises := [{ callbackEntries := [ffEntry 0] },
                             { state := PState.REJECTED, result := r1 },
                             { callbackEntries := [ffEntry 2] }, {}],
                cells := [⟨3, 2, [none, some r1, none]⟩] } := by
  rw [c7wA, c7Base_eq]
  rw [resolve_reject_plain (by simp) (by simp [getP, List.getD]) h1]
  simp only [settledW, scheduleCallbacks_, addUnhandledRejection_, modifyP, setP, getP,
    List.getD, pushTask]
  norm_num
  simp [run, runTask, executeCallbacks_, executeCallback_, invokeCallback_, invokeFn,
    runUser, popEntry_, removeUnhandledRejection_, removeURAux, drainFuel, totalEntries,
    getCell, setCell, getP, List.getD, modifyP, setP, pushTask, ffEntry]

set_option maxHeartbeats 1600000 in
theorem c7wB_eq (r1 r0 : JSVal) (h1 : plainReason r1 = true)
    (h0 : plainReason r0 = true) :
    c7wB r1 r0 = { promises := [{ state := PState.REJECTED, result := r0 },
                                { state := PState.REJECTED, result := r1 },
                                { callbackEntries := [ffEntry 2] }, {}],
                   cells := [⟨3, 1, [some r0, some r1, none]⟩] } := by
  rw [c7wB, c7wA_eq r1 h1]
  rw [resolve_reject_plain (by simp) (by simp [getP, List.getD]) h0]
  simp only [settledW, scheduleCallbacks_, addUnhandledRejection_, modifyP, setP, getP,
    List.getD, pushTask]
  norm_num
  simp [run, runTask, executeCallbacks_, executeCallback_, invokeCallback_, invokeFn,
    runUser, popEntry_, removeUnhandledRejection_, removeURAux, drainFuel, totalEntries,
    getCell, setCell, getP, List.getD, modifyP, setP, pushTask, ffEntry]

set_option maxHeartbeats 1600000 in
theorem c7wC_eq (r1 r0 r2 : JSVal) (h1 : plainReason r1 = true)
    (h0 : plainReason r0 = true) (h2 : plainReason r2 = true) :
    c7wC r1 r0 r2 =
      { promises := [{ state := PState.REJECTED, result := r0 },
                     { state := PState.REJECTED, result := r1 },
                     { state := PState.REJECTED, result := r2 },
                     { state := PState.REJECTED, result := JSVal.arr [r0, r1, r2],
                       hadUnhandledRejection := true }],
        cells := [⟨3, 0, [some r0, some r1, some r2]⟩],
        reported := [JSVal.arr [r0, r1, r2]] } := by
  rw [c7wC, c7wB_eq r1 r0 h1 h0]
  rw [resolve_reject_plain (by simp) (by simp [getP, List.getD]) h2]
  simp only [settledW, scheduleCallbacks_, addUnhandledRejection_, modifyP, setP, getP,
    List.getD, pushTask]
  norm_num
  simp [run, runTask, executeCallbacks_, executeCallback_, invokeCallback_, invokeFn,
    runUser, popEntry_, removeUnhandledRejection_, removeURAux, drainFuel, totalEntries,
    getCell, setCell, getP, List.getD, modifyP, setP, pushTask, ffEntry,
    resolve_, selfCheck, maybeThen_, markerProp, addUnhandledRejection_,
    scheduleCallbacks_, thenVoidFn, addCallbackEntry_, queueEntry_, hasEntry_]

/-- C7: `firstFulfilled` when every input rejects.  The general conjuncts are
about `Fn.ffReject cid i`, the `onReject` closure the combinator registers on
input `i`: while two or more inputs are still outstanding, a rejection changes
no promise at all (in particular the result promise stays pending — it rejects
only after all inputs have rejected); when exactly one input is outstanding,
the rejection rejects the result promise with the array assembled by position
(reason `i` at index `i`).  The remaining conjuncts run a three-input instance
with the inputs rejecting out of input order (1, then 0, then 2): after the
first two rejections the result is still pending, and after the last it is
rejected with `[r0, r1, r2]` — the reasons in input order, not rejection
order. -/
theorem C7_firstFulfilled_rejects_with_ordered_reasons
    (r0 r1 r2 : JSVal) (h0 : plainReason r0 = true)
    (h1 : plainReason r1 = true) (h2 : plainReason r2 = true) :
    (∀ (w : World) (cid i : Nat) (r : JSVal), 2 ≤ (getCell w cid).toReject →
        ∀ q, getP (invokeFn w (Fn.ffReject cid i) r).1 q = getP w q)
    ∧ (∀ (w : World) (cid i : Nat) (r : JSVal),
        (getCell w cid).toReject = 1 →
        (getCell w cid).resultPid < w.promises.length →
        (getP w (getCell w cid).resultPid).state = PState.PENDING →
        (getP (invokeFn w (Fn.ffReject cid i) r).1 (getCell w cid).resultPid).state
            = PState.REJECTED
        ∧ (getP (invokeFn w (Fn.ffReject cid i) r).1 (getCell w cid).resultPid).result
            = JSVal.arr (((getCell w cid).reasons.set i (some r)).map
                (fun o => o.getD JSVal.undef)))
    ∧ (getP (c7wA r1) 3).state = PState.PENDING
    ∧ (getP (c7wB r1 r0) 3).state = PState.PENDING
    ∧ (getP (c7wC r1 r0 r2) 3).state = PState.REJECTED
    ∧ (getP (c7wC r1 r0 r2) 3).result = JSVal.arr [r0, r1, r2] := by
  refine ⟨?_, ?_, ?_, ?_, ?_, ?_⟩
  · intro w cid i r htr q
    have hne : ¬((getCell w cid).toReject - 1 = 0) := by omega
    simp [invokeFn, hne]
  · intro w cid i r hone hlt hpend
    simp only [invokeFn, hone]
    norm_num
    rw [resolve_reject_plain (by simpa using hlt) (by simpa using hpend)
      (by simp [plainReason])]
    rw [getP_addUR_self (by simpa using hlt)]
    rw [getP_settledW_self (by simpa using hlt)]
    simp
  · rw [c7wA_eq r1 h1]; simp [getP, List.getD]
  · rw [c7wB_eq r1 r0 h1 h0]; simp [getP, List.getD]
  · rw [c7wC_eq r1 r0 r2 h1 h0 h2]; simp [getP, List.getD]
  · rw [c7wC_eq r1 r0 r2 h1 h0 h2]; simp [getP, List.getD]

/-- C7 witness at concrete reasons `'a'`, `'b'`, `'c'`. -/
theorem C7_firstFulfilled_rejects_with_ordered_reasons_witness :
    (getP (c7wB (JSVal.str "b") (JSVal.str "a")) 3).state = PState.PENDING
    ∧ (getP (c7wC (JSVal.str "b") (JSVal.str "a") (JSVal.str "c")) 3).state
        = PState.REJECTED
    ∧ (getP (c7wC (JSVal.str "b") (JSVal.str "a") (JSVal.str "c")) 3).result
        = JSVal.arr [JSVal.str "a", JSVal.str "b", JSVal.str "c"] :=
  ⟨(C7_firstFulfilled_rejects_with_ordered_reasons
      (JSVal.str "a") (JSVal.str "b") (JSVal.str "c") rfl rfl rfl).2.2.2.1,
   (C7_firstFulfilled_rejects_with_ordered_reasons
      (JSVal.str "a") (JSVal.str "b") (JSVal.str "c") rfl rfl rfl).2.2.2.2.1,
   (C7_firstFulfilled_rejects_with_ordered_reasons
      (JSVal.str "a") (JSVal.str "b") (JSVal.str "c") rfl rfl rfl).2.2.2.2.2⟩


@[simp] theorem uncaught_settledW (w : World) (pid : Nat) (s : PState) (x : JSVal) :
    (settledW w pid s x).uncaught = w.uncaught := by
  simp [settledW, scheduleCallbacks_]
  split <;> simp

/-- Number of non-`always` entries in a queue segment. -/
def countNA (es : List Entry) : Nat := (es.filter (fun e => !e.always)).length

theorem scanGo_skip (C : Nat) : ∀ (as rest : List Entry) (i count : Nat),
    (∀ e ∈ as, e.child ≠ some C) →
    cancelScan.go C (as ++ rest) i count none
      = cancelScan.go C rest (i + as.length) (count + countNA as) none := by
  intro as
  induction as with
  | nil => intro rest i count _; simp [countNA]
  | cons a as ih =>
      intro rest i count hno
      have hhd : a.child ≠ some C := hno a (by simp)
      by_cases ha : a.always
      · rw [List.cons_append, cancelScan.go]
        simp only [ha, not_true_eq_false, if_false]
        rw [ih rest (i + 1) count (fun e he => hno e (by simp [he]))]
        have : countNA (a :: as) = countNA as := by simp [countNA, ha]
        rw [this, List.length_cons]
        congr 1
        omega
      · rw [List.cons_append, cancelScan.go]
        simp only [ha, not_false_eq_true, if_true, hhd, if_false, Option.isSome_none,
          Bool.false_eq_true, false_and, if_false]
        rw [ih rest (i + 1) (count + 1) (fun e he => hno e (by simp [he]))]
        have : countNA (a :: as) = countNA as + 1 := by simp [countNA, ha]
        rw [this, List.length_cons]
        congr 1 <;> omega

theorem scanGo_after (C : Nat) : ∀ (bs : List Entry) (i j : Nat),
    (∀ e ∈ bs, e.child ≠ some C) →
    cancelScan.go C bs i 1 (some j)
      = if countNA bs = 0 then (1, some j) else (2, some j) := by
  intro bs
  induction bs with
  | nil => intro i j _; simp [cancelScan.go, countNA]
  | cons b bs ih =>
      intro i j hno
      have hhd : b.child ≠ some C := hno b (by simp)
      by_cases hb : b.always
      · rw [cancelScan.go]
        simp only [hb, not_true_eq_false, if_false]
        rw [ih (i + 1) j (fun e he => hno e (by simp [he]))]
        have : countNA (b :: bs) = countNA bs := by simp [countNA, hb]
        rw [this]
      · rw [cancelScan.go]
        simp only [hb, not_false_eq_true, if_true, hhd, if_false]
        have : countNA (b :: bs) = countNA bs + 1 := by simp [countNA, hb]
        simp [this]

theorem cancelScan_multi (C : Nat) (as bs : List Entry) (eC : Entry)
    (halw : eC.always = false) (hch : eC.child = some C)
    (hno_as : ∀ e ∈ as, e.child ≠ some C)
    (hno_bs : ∀ e ∈ bs, e.child ≠ some C)
    (hsib : 1 ≤ countNA as + countNA bs) :
    ∃ cnt, cancelScan (as ++ eC :: bs) C = (cnt, some as.length) ∧ 2 ≤ cnt := by
  unfold cancelScan
  rw [scanGo_skip C as (eC :: bs) 0 0 hno_as]
  rw [cancelScan.go]
  simp only [halw, Bool.false_eq_true, not_false_eq_true, if_true, hch, if_true,
    Nat.zero_add, Option.isSome_some, true_and]
  by_cases hz : countNA as = 0
  · have hbs : ¬(countNA bs = 0) := by omega
    rw [hz]
    norm_num
    rw [scanGo_after C bs (as.length + 1) as.length hno_bs]
    simp [hbs]
  · rw [if_pos (by omega : countNA as + 1 > 1)]
    exact ⟨countNA as + 1, rfl, by omega⟩

/-- The callback entry a `then` call with no rejection handler queues on its
receiver: child `c`, some fulfillment side `f`, pass-through rejection. -/
def passEntry (f : Fn) (c : Nat) : Entry :=
  { child := some c, onFulfilled := f, onRejected := some (Fn.rejectTo c), always := false }

theorem getD_append_cons {α : Type} (as : List α) (e : α) (bs : List α) (d : α) :
    (as ++ e :: bs).getD as.length d = e := by
  induction as with
  | nil => rfl
  | cons a as ih => simpa using ih

theorem eraseIdx_append_cons {α : Type} (as : List α) (e : α) (bs : List α) :
    (as ++ e :: bs).eraseIdx as.length = as ++ bs := by
  induction as with
  | nil => rfl
  | cons a as ih => simpa using ih

theorem removeUR_noflag {w : World} {pid : Nat}
    (h : (getP w pid).hadUnhandledRejection = false) :
    removeUnhandledRejection_ w pid = w := by
  rw [removeUnhandledRejection_, removeURAux]
  simp [h]

theorem run_succ (fuel : Nat) (w : World) :
    run (fuel + 1) w = match w.tasks with
      | [] => w
      | t :: ts => run fuel (runTask { w with tasks := ts } t) := by
  rw [run]

theorem run_one (t : Task) {w : World} (h : w.tasks = [t]) :
    run 1 w = runTask { w with tasks := [] } t := by
  rw [run_succ, h]
  rfl

/-- C3: canceling one of several children.  `w` is any world in which parent
`P` is pending with callback queue `as ++ [C's entry] ++ bs`, where `C`'s
entry is the pass-through entry a `then` call creates (child `C`, rejection
side `reject`), no other entry targets `C`, and at least one other
non-`always` entry exists (so `P` has two or more non-`always` children).
Canceling `C` (scheduled, then one scheduler step) rejects only `C` with the
cancellation error, removes exactly `C`'s entry from `P`'s queue, leaves `P`
pending with its result untouched, leaves every other promise (in particular
every sibling child) completely unchanged, and only schedules `C`'s own drain.
-/
theorem C3_cancel_one_of_many_children (w : World) (P C : Nat) (m : Option String) (f : Fn)
    (as bs : List Entry)
    (hP : P < w.promises.length) (hC : C < w.promises.length) (hPC : P ≠ C)
    (hq : (getP w P).callbackEntries = as ++ passEntry f C :: bs)
    (hno_as : ∀ e ∈ as, e.child ≠ some C)
    (hno_bs : ∀ e ∈ bs, e.child ≠ some C)
    (hsib : 1 ≤ countNA as + countNA bs)
    (hpendP : (getP w P).state = PState.PENDING)
    (hpendC : (getP w C).state = PState.PENDING)
    (hparC : (getP w C).parent = some P)
    (hflagP : (getP w P).hadUnhandledRejection = false)
    (hexC : (getP w C).executing = false)
    (htasks : w.tasks = []) :
    (getP (run 1 (cancel w C m)) C).state = PState.REJECTED
    ∧ (getP (run 1 (cancel w C m)) C).result = JSVal.cancelErr m
    ∧ (getP (run 1 (cancel w C m)) P).state = PState.PENDING
    ∧ (getP (run 1 (cancel w C m)) P).result = (getP w P).result
    ∧ (getP (run 1 (cancel w C m)) P).callbackEntries = as ++ bs
    ∧ (∀ q, q ≠ P → q ≠ C → getP (run 1 (cancel w C m)) q = getP w q)
    ∧ (run 1 (cancel w C m)).tasks = [Task.execCallbacks C]
    ∧ (run 1 (cancel w C m)).reported = w.reported
    ∧ (run 1 (cancel w C m)).uncaught = w.uncaught := by
  rw [cancel, if_pos hpendC]
  have hcc : cancelChild_ w.promises.length w P C (JSVal.cancelErr m) =
      (settledW
        (setP (setP w P { getP w P with callbackEntries := as ++ bs }) C
          { getP w C with parent := none })
        C PState.REJECTED (JSVal.cancelErr m), none) := by
    obtain ⟨cnt, hscan, hcnt⟩ :=
      cancelScan_multi C as bs (passEntry f C) rfl rfl hno_as hno_bs hsib
    rw [cancelChild_]
    rw [if_neg (by simp [hq])]
    simp only [hq, hscan]
    rw [if_neg (by rintro ⟨-, h1⟩; omega)]
    rw [getD_append_cons]
    have hrm : removeEntryAt_ w P as.length
        = setP w P { getP w P with callbackEntries := as ++ bs } := by
      simp only [removeEntryAt_, modifyP, hq, eraseIdx_append_cons]
    rw [hrm]
    have hflag1 : (getP (setP w P { getP w P with callbackEntries := as ++ bs }) P).hadUnhandledRejection = false := by
      rw [getP_setP_self hP]
      exact hflagP
    have hgC1 : getP (setP w P { getP w P with callbackEntries := as ++ bs }) C = getP w C :=
      getP_setP_ne hPC _
    simp only [executeCallback_, passEntry, Option.isSome_some, reduceCtorEq,
      not_false_eq_true, and_true, true_and, if_true]
    rw [removeUR_noflag hflag1]
    simp only [invokeCallback_, invokeFn, reduceCtorEq, if_false]
    rw [show (modifyP (setP w P { getP w P with callbackEntries := as ++ bs }) C
        fun p => { p with parent := none })
        = setP (setP w P { getP w P with callbackEntries := as ++ bs }) C
            { getP w C with parent := none } from by
      simp only [modifyP, hgC1]]
    rw [resolve_reject_cancel (by simpa using hC) (by rw [getP_setP_self (by simpa using hC)]; exact hpendC)]
  have hrun : run 1 (pushTask w (Task.runCancel C m))
      = runTask w (Task.runCancel C m) := by
    rw [run_one (Task.runCancel C m) (by simp [htasks])]
    congr 1
    simp only [pushTask]
    rw [← htasks]
  have hci : cancelInternal_ (chainFuel w) w C (JSVal.cancelErr m)
      = (modifyP (settledW
            (setP (setP w P { getP w P with callbackEntries := as ++ bs }) C
              { getP w C with parent := none })
            C PState.REJECTED (JSVal.cancelErr m)) C
          (fun p => { p with parent := none }), none) := by
    rw [chainFuel, cancelInternal_, if_pos hpendC]
    simp only [hparC, hcc]
  have hfin : run 1 (pushTask w (Task.runCancel C m))
      = modifyP (settledW
            (setP (setP w P { getP w P with callbackEntries := as ++ bs }) C
              { getP w C with parent := none })
            C PState.REJECTED (JSVal.cancelErr m)) C
          (fun p => { p with parent := none }) := by
    rw [hrun]
    simp only [runTask, hci]
  rw [hfin]
  refine ⟨?_, ?_, ?_, ?_, ?_, ?_, ?_, ?_, ?_⟩
  · rw [getP_modifyP_self (by simpa using hC), getP_settledW_self (by simpa using hC)]
  · rw [getP_modifyP_self (by simpa using hC), getP_settledW_self (by simpa using hC)]
  · rw [getP_modifyP_ne (Ne.symm hPC), getP_settledW_ne (Ne.symm hPC),
      getP_setP_ne (Ne.symm hPC), getP_setP_self hP]
    exact hpendP
  · rw [getP_modifyP_ne (Ne.symm hPC), getP_settledW_ne (Ne.symm hPC),
      getP_setP_ne (Ne.symm hPC), getP_setP_self hP]
  · rw [getP_modifyP_ne (Ne.symm hPC), getP_settledW_ne (Ne.symm hPC),
      getP_setP_ne (Ne.symm hPC), getP_setP_self hP]
  · intro q hqP hqC
    rw [getP_modifyP_ne (Ne.symm hqC), getP_settledW_ne (Ne.symm hqC),
      getP_setP_ne (Ne.symm hqC), getP_setP_ne (Ne.symm hqP)]
  · rw [tasks_modifyP, tasks_settledW (by simpa using hC),
      getP_setP_self (by simpa using hC)]
    simp [hexC, htasks]
  · simp
  · simp


/-- C3 witness: a parent (id 0) with two `then` children (ids 1 and 2);
child 2 is canceled. -/
def c3World : World :=
  let w := (newPromise {}).1
  let w := (thenFn w 0 (some (UserFn.const 1 JSVal.undef)) none).1
  (thenFn w 0 (some (UserFn.const 2 JSVal.undef)) none).1

theorem C3_cancel_one_of_many_children_witness :
    (getP (run 1 (cancel c3World 2 none)) 2).state = PState.REJECTED
    ∧ (getP (run 1 (cancel c3World 2 none)) 0).state = PState.PENDING
    ∧ (getP (run 1 (cancel c3World 2 none)) 0).callbackEntries
        = [passEntry (Fn.fulfillWrap (UserFn.const 1 JSVal.undef) 1) 1] :=
  have h := C3_cancel_one_of_many_children c3World 0 2 none
    (Fn.fulfillWrap (UserFn.const 2 JSVal.undef) 2)
    [passEntry (Fn.fulfillWrap (UserFn.const 1 JSVal.undef) 1) 1] []
    (by decide) (by decide) (by decide) (by decide) (by decide) (by decide)
    (by decide) (by decide) (by decide) (by decide) (by decide) (by decide)
    (by decide)
  ⟨h.1, h.2.2.1, h.2.2.2.2.1⟩


/-- The last member of the non-empty chain `a :: xs`. -/
def lastOf (a : Nat) (xs : List Nat) : Nat := (a :: xs).getLast (by simp)

@[simp] theorem lastOf_nil (a : Nat) : lastOf a [] = a := rfl

theorem lastOf_cons (a b : Nat) (xs : List Nat) :
    lastOf a (b :: xs) = lastOf b xs := by
  simp [lastOf, List.getLast_cons]

theorem lastOf_append_singleton (a c : Nat) (xs : List Nat) :
    lastOf a (xs ++ [c]) = c := by
  induction xs generalizing a with
  | nil => rfl
  | cons x xs ih => rw [List.cons_append, lastOf_cons, ih]

theorem lastOf_mem (a : Nat) (xs : List Nat) : lastOf a xs ∈ a :: xs :=
  List.getLast_mem _

/-- The parent back-links of a cancellation chain: each member of `ds` has the
preceding member as its `parent`. -/
def pseg (w : World) : Nat → List Nat → Prop
  | _, [] => True
  | a, b :: rest => (getP w b).parent = some a ∧ pseg w b rest

/-- The queue links of a cancellation chain: each member's queue holds exactly
the pass-through entry of the next member. -/
def qseg (w : World) : Nat → List Nat → Prop
  | _, [] => True
  | a, b :: rest => (∃ f, (getP w a).callbackEntries = [passEntry f b]) ∧ qseg w b rest

theorem pseg_append (w : World) : ∀ (xs ys : List Nat) (a : Nat),
    pseg w a (xs ++ ys) ↔ pseg w a xs ∧ pseg w (lastOf a xs) ys := by
  intro xs
  induction xs with
  | nil => intro ys a; simp [pseg]
  | cons x xs ih =>
      intro ys a
      rw [List.cons_append]
      show (getP w x).parent = some a ∧ pseg w x (xs ++ ys) ↔ _
      rw [ih ys x, lastOf_cons]
      show _ ↔ ((getP w x).parent = some a ∧ pseg w x xs) ∧ _
      tauto

theorem qseg_append (w : World) : ∀ (xs ys : List Nat) (a : Nat),
    qseg w a (xs ++ ys) ↔ qseg w a xs ∧ qseg w (lastOf a xs) ys := by
  intro xs
  induction xs with
  | nil => intro ys a; simp [qseg]
  | cons x xs ih =>
      intro ys a
      rw [List.cons_append]
      show (∃ f, (getP w a).callbackEntries = [passEntry f x]) ∧ qseg w x (xs ++ ys) ↔ _
      rw [ih ys x, lastOf_cons]
      show _ ↔ ((∃ f, (getP w a).callbackEntries = [passEntry f x]) ∧ qseg w x xs) ∧ _
      tauto

theorem qseg_transfer (w w' : World) : ∀ (ds : List Nat) (a : Nat),
    qseg w a ds →
    (getP w' a).callbackEntries = (getP w a).callbackEntries →
    (∀ q ∈ ds, (getP w' q).callbackEntries = (getP w q).callbackEntries) →
    qseg w' a ds := by
  intro ds
  induction ds with
  | nil => intro a _ _ _; trivial
  | cons b rest ih =>
      intro a hseg ha hall
      obtain ⟨⟨f, hf⟩, hrest⟩ := hseg
      exact ⟨⟨f, ha.trans hf⟩,
        ih b hrest (hall b (by simp)) (fun q hq => hall q (by simp [hq]))⟩

theorem cancelScan_single (f : Fn) (c : Nat) :
    cancelScan [passEntry f c] c = (1, some 0) := by
  simp [cancelScan, cancelScan.go, passEntry]

theorem nodup_all_lt_length {l : List Nat} {n : Nat}
    (hnd : l.Nodup) (hlt : ∀ q ∈ l, q < n) : l.length ≤ n := by
  classical
  have h1 : l.toFinset.card = l.length := List.toFinset_card_of_nodup hnd
  have h2 : l.toFinset ⊆ Finset.range n := by
    intro x hx
    rw [List.mem_toFinset] at hx
    simpa using hlt x hx
  have h3 := Finset.card_le_card h2
  rw [h1, Finset.card_range] at h3
  exact h3

theorem run_step (n : Nat) (t : Task) (ts : List Task) {w : World}
    (h : w.tasks = t :: ts) :
    run (n + 1) w = run n (runTask { w with tasks := ts } t) := by
  rw [run_succ, h]

theorem drain_empty {w : World} {pid : Nat}
    (h : (getP w pid).callbackEntries = []) (fuel : Nat) :
    executeCallbacks_ (fuel + 1) w pid
      = (modifyP w pid (fun p => { p with executing := false }), none) := by
  rw [executeCallbacks_]
  simp [popEntry_, h]


theorem drain_single {w : World} {pid c : Nat} {f : Fn} {m : Option String} (fuel : Nat)
    (hq : (getP w pid).callbackEntries = [passEntry f c])
    (hst : (getP w pid).state = PState.REJECTED)
    (hres : (getP w pid).result = JSVal.cancelErr m)
    (hflag : (getP w pid).hadUnhandledRejection = false)
    (hplt : pid < w.promises.length)
    (hclt : c < w.promises.length)
    (hpc : pid ≠ c)
    (hcpend : (getP w c).state = PState.PENDING) :
    executeCallbacks_ (fuel + 2) w pid
      = (modifyP (settledW (setP (setP w pid { getP w pid with callbackEntries := [] })
            c { getP w c with parent := none }) c PState.REJECTED (JSVal.cancelErr m))
          pid (fun p => { p with executing := false }), none) := by
  rw [executeCallbacks_]
  have hpop : popEntry_ w pid
      = (setP w pid { getP w pid with callbackEntries := [] }, some (passEntry f c)) := by
    simp only [popEntry_, hq, modifyP]
  simp only [hpop]
  have hg1 : getP (setP w pid { getP w pid with callbackEntries := [] }) pid
      = { getP w pid with callbackEntries := [] } := getP_setP_self hplt _
  have hgc1 : getP (setP w pid { getP w pid with callbackEntries := [] }) c = getP w c :=
    getP_setP_ne hpc _
  have hec : executeCallback_ (setP w pid { getP w pid with callbackEntries := [] }) pid
      (passEntry f c)
      (getP (setP w pid { getP w pid with callbackEntries := [] }) pid).state
      (getP (setP w pid { getP w pid with callbackEntries := [] }) pid).result
      = (settledW (setP (setP w pid { getP w pid with callbackEntries := [] })
            c { getP w c with parent := none }) c PState.REJECTED (JSVal.cancelErr m), none) := by
    rw [hg1]
    show executeCallback_ _ pid (passEntry f c) (getP w pid).state (getP w pid).result = _
    rw [hst, hres]
    simp only [executeCallback_, passEntry, Option.isSome_some, reduceCtorEq,
      not_false_eq_true, and_true, true_and, if_true]
    rw [removeUR_noflag (by rw [hg1]; exact hflag)]
    simp only [invokeCallback_, invokeFn, reduceCtorEq, if_false]
    rw [show (modifyP (setP w pid { getP w pid with callbackEntries := [] }) c
        fun p => { p with parent := none })
        = setP (setP w pid { getP w pid with callbackEntries := [] }) c
            { getP w c with parent := none } from by
      simp only [modifyP, hgc1]]
    rw [resolve_reject_cancel (by simpa using hclt)
      (by rw [getP_setP_self (by simpa using hclt)]; exact hcpend)]
  simp only [hec]
  have hq3 : (getP (settledW (setP (setP w pid { getP w pid with callbackEntries := [] })
        c { getP w c with parent := none }) c PState.REJECTED (JSVal.cancelErr m))
      pid).callbackEntries = [] := by
    rw [getP_settledW_ne (Ne.symm hpc), getP_setP_ne (Ne.symm hpc), hg1]
  rw [drain_empty hq3]


theorem cancelUp (w : World) (root : Nat) (m : Option String)
    (hrl : root < w.promises.length)
    (hrpend : (getP w root).state = PState.PENDING)
    (hrex : (getP w root).executing = false)
    (hrpar : (getP w root).parent = none) :
    ∀ (ds : List Nat), (root :: ds).Nodup →
      (∀ q ∈ ds, q < w.promises.length ∧ (getP w q).state = PState.PENDING) →
      pseg w root ds → qseg w root ds →
      ∀ fuel, ds.length + 1 ≤ fuel →
      ∃ w', cancelInternal_ fuel w (lastOf root ds) (JSVal.cancelErr m) = (w', none)
        ∧ (∀ q, q ∉ root :: ds → getP w' q = getP w q)
        ∧ (∀ q ∈ ds, getP w' q = { getP w q with parent := none })
        ∧ getP w' root = { getP w root with state := PState.REJECTED, result := JSVal.cancelErr m, parent := none, executing := true }
        ∧ w'.tasks = w.tasks ++ [Task.execCallbacks root]
        ∧ w'.promises.length = w.promises.length
        ∧ w'.trace = w.trace ∧ w'.reported = w.reported
        ∧ w'.uncaught = w.uncaught ∧ w'.cells = w.cells := by
  intro ds
  induction ds using List.reverseRecOn with
  | nil =>
      intro hnd hds hp hq fuel hfuel
      match fuel, hfuel with
      | k + 1, _ =>
        rw [lastOf_nil, cancelInternal_, if_pos hrpend]
        simp only [hrpar]
        rw [resolve_reject_cancel hrl hrpend]
        refine ⟨_, rfl, fun q hq => ?_, by simp, getP_settledW_self hrl _ _, ?_, by simp,
          by simp, by simp, by simp, by simp⟩
        · exact getP_settledW_ne (by simpa using (Ne.symm (by simpa using hq))) _ _
        · rw [tasks_settledW hrl]
          simp [hrex]
  | append_singleton xs c ih =>
      intro hnd hds hp hq fuel hfuel
      have hcin : c ∈ xs ++ [c] := by simp
      obtain ⟨hclt, hcpend⟩ := hds c hcin
      have hndparts : root ∉ xs ∧ root ≠ c ∧ xs.Nodup ∧ c ∉ xs := by
        simp only [List.nodup_cons, List.nodup_append, List.nodup_singleton,
          List.mem_append, List.mem_singleton, List.disjoint_singleton] at hnd
        refine ⟨fun h => hnd.1 (Or.inl h), fun h => hnd.1 (Or.inr h), hnd.2.1, hnd.2.2.2⟩
      have hcnotin : c ∉ root :: xs := by
        intro h
        rcases List.mem_cons.mp h with h | h
        · exact hndparts.2.1 h.symm
        · exact hndparts.2.2.2 h
      have hnd' : (root :: xs).Nodup := by
        simp only [List.nodup_cons, List.nodup_append] at hnd ⊢
        exact ⟨fun h => hnd.1 (by simp [h]), hnd.2.1⟩
      have hparc : (getP w c).parent = some (lastOf root xs) := by
        have := (pseg_append w xs [c] root).mp hp
        exact this.2.1
      obtain ⟨f, hqbf⟩ : ∃ f, (getP w (lastOf root xs)).callbackEntries
          = [passEntry f c] := by
        have := (qseg_append w xs [c] root).mp hq
        exact this.2.1
      have hbpend : (getP w (lastOf root xs)).state = PState.PENDING := by
        rcases List.mem_cons.mp (lastOf_mem root xs) with h | h
        · rw [h]; exact hrpend
        · exact (hds _ (by simp [h])).2
      match fuel, hfuel with
      | k + 1, hfuel =>
        have hk : xs.length + 1 ≤ k := by
          simp only [List.length_append, List.length_singleton] at hfuel
          omega
        rw [lastOf_append_singleton, cancelInternal_, if_pos hcpend]
        simp only [hparc]
        have hcc : cancelChild_ k w (lastOf root xs) c (JSVal.cancelErr m)
            = cancelInternal_ k w (lastOf root xs) (JSVal.cancelErr m) := by
          rw [cancelChild_]
          rw [if_neg (by simp [hqbf])]
          simp only [hqbf, cancelScan_single]
          rw [if_pos ⟨hbpend, trivial⟩]
        obtain ⟨w'', hw'', hframe, hdsp, hrootp, htasksp, hlenp, htrp, hrepp, huncp, hcellp⟩ :=
          ih hnd' (fun q hq => hds q (by simp [hq])) ((pseg_append w xs [c] root).mp hp).1
            ((qseg_append w xs [c] root).mp hq).1 k hk
        have hclt'' : c < w''.promises.length := by rw [hlenp]; exact hclt
        refine ⟨modifyP w'' c (fun p => { p with parent := none }), ?_, ?_, ?_, ?_, ?_, ?_, ?_, ?_, ?_, ?_⟩
        · simp only [hcc, hw'']
        · intro q hqn
          have hqc : q ≠ c := by intro h; exact hqn (by simp [h])
          rw [getP_modifyP_ne (Ne.symm hqc), hframe q (by
            intro h
            rcases List.mem_cons.mp h with h | h
            · exact hqn (by simp [h])
            · exact hqn (by simp [h]))]
        · intro q hqm
          rcases List.mem_append.mp hqm with h | h
          · have hqc : q ≠ c := fun hh => hndparts.2.2.2 (hh ▸ h)
            rw [getP_modifyP_ne (Ne.symm hqc)]
            exact hdsp q h
          · have hqc : q = c := by simpa using h
            rw [hqc, getP_modifyP_self hclt'', hframe c hcnotin]
        · rw [getP_modifyP_ne (Ne.symm hndparts.2.1), hrootp]
        · rw [tasks_modifyP, htasksp]
        · rw [length_modifyP, hlenp]
        · rw [trace_modifyP, htrp]
        · rw [reported_modifyP, hrepp]
        · rw [uncaught_modifyP, huncp]
        · rw [cells_modifyP, hcellp]


theorem cascadeRun : ∀ (ds : List Nat) (w : World) (p : Nat) (m : Option String),
    p < w.promises.length →
    (getP w p).state = PState.REJECTED →
    (getP w p).result = JSVal.cancelErr m →
    (getP w p).hadUnhandledRejection = false →
    (∀ q ∈ ds, q < w.promises.length ∧ (getP w q).state = PState.PENDING
       ∧ (getP w q).executing = false ∧ (getP w q).hadUnhandledRejection = false) →
    qseg w p ds →
    (getP w (lastOf p ds)).callbackEntries = [] →
    w.tasks = [Task.execCallbacks p] →
    (p :: ds).Nodup →
    (∀ q ∈ p :: ds, (getP (run (ds.length + 1) w) q).state = PState.REJECTED
        ∧ (getP (run (ds.length + 1) w) q).result = JSVal.cancelErr m)
    ∧ (∀ q, q ∉ p :: ds → getP (run (ds.length + 1) w) q = getP w q)
    ∧ (run (ds.length + 1) w).tasks = []
    ∧ (run (ds.length + 1) w).reported = w.reported
    ∧ (run (ds.length + 1) w).uncaught = w.uncaught := by
  intro ds
  induction ds with
  | nil =>
      intro w p m hplt hst hres hflag hds hq hleaf htasks hnd
      rw [lastOf_nil] at hleaf
      rw [List.length_nil, Nat.zero_add, run_one (Task.execCallbacks p) htasks]
      have hdr : executeCallbacks_ (drainFuel { w with tasks := [] })
          { w with tasks := [] } p
          = (modifyP { w with tasks := [] } p (fun p => { p with executing := false }),
             none) := by
        rw [drainFuel]
        exact drain_empty
          (show (getP { w with tasks := [] } p).callbackEntries = [] from hleaf) _
      simp only [runTask, hdr]
      refine ⟨?_, ?_, ?_, ?_, ?_⟩
      · intro q hqm
        have hqp : q = p := by simpa using hqm
        rw [hqp, getP_modifyP_self (by simpa using hplt)]
        exact ⟨hst, hres⟩
      · intro q hqn
        have hqp : p ≠ q := fun h => hqn (by simp [h])
        rw [getP_modifyP_ne hqp]
        rfl
      · simp
      · simp
      · simp
  | cons c rest ih =>
      intro w p m hplt hst hres hflag hds hq hleaf htasks hnd
      obtain ⟨⟨f, hqf⟩, hqrest⟩ := hq
      obtain ⟨hclt, hcpend, hcex, hcflag⟩ := hds c (by simp)
      have hndparts : p ∉ c :: rest ∧ c ∉ rest ∧ rest.Nodup := by
        simp only [List.nodup_cons] at hnd
        exact ⟨hnd.1, hnd.2.1, hnd.2.2⟩
      have hpc : p ≠ c := fun h => hndparts.1 (by simp [h])
      rw [lastOf_cons] at hleaf
      rw [List.length_cons,
        run_step (rest.length + 1) (Task.execCallbacks p) [] htasks]
      have hdr : executeCallbacks_ (drainFuel { w with tasks := [] })
          { w with tasks := [] } p
          = (modifyP (settledW (setP (setP { w with tasks := [] } p
                { getP w p with callbackEntries := [] })
              c { getP w c with parent := none }) c PState.REJECTED (JSVal.cancelErr m))
            p (fun p => { p with executing := false }), none) := by
        rw [drainFuel]
        exact drain_single _
          (show (getP { w with tasks := [] } p).callbackEntries = [passEntry f c] from hqf)
          hst hres hflag hplt hclt hpc hcpend
      simp only [runTask, hdr]
      set W1 := modifyP (settledW (setP (setP { w with tasks := [] } p
            { getP w p with callbackEntries := [] })
          c { getP w c with parent := none }) c PState.REJECTED (JSVal.cancelErr m))
        p (fun p => { p with executing := false }) with hW1
      have hlen1 : W1.promises.length = w.promises.length := by simp [hW1]
      have hgW1 : ∀ q, q ≠ p → q ≠ c → getP W1 q = getP w q := by
        intro q hqp hqc
        rw [hW1, getP_modifyP_ne (Ne.symm hqp), getP_settledW_ne (Ne.symm hqc),
          getP_setP_ne (Ne.symm hqc), getP_setP_ne (Ne.symm hqp)]
        rfl
      have hgW1c : getP W1 c = { getP w c with parent := none, result := JSVal.cancelErr m, state := PState.REJECTED, executing := true } := by
        rw [hW1, getP_modifyP_ne hpc, getP_settledW_self (by simpa using hclt),
          getP_setP_self (by simpa using hclt)]
      have hgW1p : getP W1 p = { getP w p with callbackEntries := [], executing := false } := by
        rw [hW1, getP_modifyP_self (by simpa using hplt), getP_settledW_ne (Ne.symm hpc),
          getP_setP_ne (Ne.symm hpc), getP_setP_self (by simpa using hplt)]
      have htasks1 : W1.tasks = [Task.execCallbacks c] := by
        rw [hW1, tasks_modifyP, tasks_settledW (by simpa using hclt),
          getP_setP_self (by simpa using hclt)]
        simp [hcex]
      have hrep1 : W1.reported = w.reported := by simp [hW1]
      have hunc1 : W1.uncaught = w.uncaught := by simp [hW1]
      have ihres := ih W1 c m (by rw [hlen1]; exact hclt)
        (by rw [hgW1c]) (by rw [hgW1c])
        (by rw [hgW1c]; exact hcflag)
        (by
          intro q hqm
          have hqp : q ≠ p := fun h => hndparts.1 (h ▸ by simp [hqm])
          have hqc : q ≠ c := fun h => hndparts.2.1 (h ▸ hqm)
          rw [hgW1 q hqp hqc, hlen1]
          exact hds q (by simp [hqm]))
        (by
          refine qseg_transfer w W1 rest c hqrest ?_ ?_
          · rw [hgW1c]
          · intro q hqm
            have hqp : q ≠ p := fun h => hndparts.1 (h ▸ by simp [hqm])
            have hqc : q ≠ c := fun h => hndparts.2.1 (h ▸ hqm)
            rw [hgW1 q hqp hqc])
        (by
          rcases List.mem_cons.mp (lastOf_mem c rest) with h | h
          · rw [h, hgW1c]
            rw [h] at hleaf
            exact hleaf
          · have hqp : lastOf c rest ≠ p := fun hh => hndparts.1 (hh ▸ by simp [h])
            have hqc : lastOf c rest ≠ c := fun hh => hndparts.2.1 (hh ▸ h)
            rw [hgW1 _ hqp hqc]
            exact hleaf)
        htasks1
        (by
          simp only [List.nodup_cons] at hnd ⊢
          exact ⟨hnd.2.1, hnd.2.2⟩)
      obtain ⟨ih1, ih2, ih3, ih4, ih5⟩ := ihres
      refine ⟨?_, ?_, ?_, ?_, ?_⟩
      · intro q hqm
        rcases List.mem_cons.mp hqm with h | h
        · rw [h, ih2 p hndparts.1, hgW1p]
          exact ⟨hst, hres⟩
        · exact ih1 q h
      · intro q hqn
        have hq1 : q ∉ c :: rest := fun h => hqn (by simp [List.mem_cons.mp h])
        have hqp : q ≠ p := fun h => hqn (by simp [h])
        have hqc : q ≠ c := fun h => hqn (by simp [h])
        rw [ih2 q hq1, hgW1 q hqp hqc]
      · exact ih3
      · rw [ih4, hrep1]
      · rw [ih5, hunc1]


/-- C2: cancellation ripples upward through arbitrarily many generations.
`root :: ds` is a chain of distinct pending promises of arbitrary length:
`root` has no parent, each member of `ds` has the previous member as its
`parent`, and each member's callback queue holds exactly the one pass-through
entry of its single `then` child (so every ancestor has exactly one
non-`always` cancellable descendant); the leaf's queue is empty.  Canceling
the leaf — the scheduled cancel task plus the cascade of scheduled drains,
`ds.length + 2` scheduler steps in all — rejects **every** member of the
chain, the leaf, its parent, and all further ancestors up to the root, with
the same cancellation-marked error, while every promise outside the chain is
left untouched. -/
theorem C2_cancel_propagates_through_ancestor_chain
    (w : World) (root : Nat) (ds : List Nat) (m : Option String)
    (hnd : (root :: ds).Nodup)
    (hrl : root < w.promises.length)
    (hrpend : (getP w root).state = PState.PENDING)
    (hrex : (getP w root).executing = false)
    (hrflag : (getP w root).hadUnhandledRejection = false)
    (hrpar : (getP w root).parent = none)
    (hds : ∀ q ∈ ds, q < w.promises.length ∧ (getP w q).state = PState.PENDING
        ∧ (getP w q).executing = false ∧ (getP w q).hadUnhandledRejection = false)
    (hp : pseg w root ds) (hq : qseg w root ds)
    (hleaf : (getP w (lastOf root ds)).callbackEntries = [])
    (htasks : w.tasks = []) :
    (∀ q ∈ root :: ds,
        (getP (run (ds.length + 2) (cancel w (lastOf root ds) m)) q).state = PState.REJECTED
        ∧ (getP (run (ds.length + 2) (cancel w (lastOf root ds) m)) q).result = JSVal.cancelErr m)
    ∧ (∀ q, q ∉ root :: ds →
        getP (run (ds.length + 2) (cancel w (lastOf root ds) m)) q = getP w q)
    ∧ (run (ds.length + 2) (cancel w (lastOf root ds) m)).tasks = []
    ∧ (run (ds.length + 2) (cancel w (lastOf root ds) m)).reported = w.reported
    ∧ (run (ds.length + 2) (cancel w (lastOf root ds) m)).uncaught = w.uncaught := by
  have hleafpend : (getP w (lastOf root ds)).state = PState.PENDING := by
    rcases List.mem_cons.mp (lastOf_mem root ds) with h | h
    · rw [h]; exact hrpend
    · exact (hds _ h).2.1
  rw [cancel, if_pos hleafpend]
  rw [show ds.length + 2 = (ds.length + 1) + 1 from rfl]
  rw [run_step (ds.length + 1) (Task.runCancel (lastOf root ds) m) [] (by simp [htasks])]
  have hw0 : ({ pushTask w (Task.runCancel (lastOf root ds) m) with tasks := [] } : World)
      = w := by
    show ({ w with tasks := [] } : World) = w
    rw [← htasks]
  rw [hw0]
  have hfuel : ds.length + 1 ≤ chainFuel w := by
    rw [chainFuel]
    have hh := nodup_all_lt_length hnd (by
      intro q hq'
      rcases List.mem_cons.mp hq' with h | h
      · rw [h]; exact hrl
      · exact (hds q h).1)
    simp only [List.length_cons] at hh
    omega
  obtain ⟨w1, hci, hframe1, hds1, hroot1, htasks1, hlen1, htr1, hrep1, hunc1, hcell1⟩ :=
    cancelUp w root m hrl hrpend hrex hrpar ds hnd
      (fun q hq' => ⟨(hds q hq').1, (hds q hq').2.1⟩) hp hq (chainFuel w) hfuel
  simp only [runTask, hci]
  have hrl1 : root < w1.promises.length := by rw [hlen1]; exact hrl
  obtain ⟨c1, c2, c3, c4, c5⟩ := cascadeRun ds w1 root m hrl1
    (by rw [hroot1]) (by rw [hroot1])
    (by rw [hroot1]; exact hrflag)
    (by
      intro q hq'
      rw [hds1 q hq', hlen1]
      exact hds q hq')
    (by
      refine qseg_transfer w w1 ds root hq ?_ ?_
      · rw [hroot1]
      · intro q hq'
        rw [hds1 q hq'])
    (by
      rcases List.mem_cons.mp (lastOf_mem root ds) with h | h
      · rw [h, hroot1]
        rw [h] at hleaf
        exact hleaf
      · rw [hds1 _ h]
        exact hleaf)
    (by rw [htasks1, htasks]; rfl)
    hnd
  exact ⟨c1, fun q hq' => (c2 q hq').trans (hframe1 q hq'), c3,
    c4.trans hrep1, c5.trans hunc1⟩

/-- C2 witness: a three-generation chain 0 ← 1 ← 2 built with `then`;
the leaf (id 2) is canceled with message `'stop'`. -/
def c2World : World :=
  let w := (newPromise {}).1
  let w := (thenFn w 0 (some (UserFn.const 1 JSVal.undef)) none).1
  (thenFn w 1 (some (UserFn.const 2 JSVal.undef)) none).1

theorem C2_cancel_propagates_through_ancestor_chain_witness :
    (getP (run 4 (cancel c2World 2 (some "stop"))) 0).state = PState.REJECTED
    ∧ (getP (run 4 (cancel c2World 2 (some "stop"))) 1).state = PState.REJECTED
    ∧ (getP (run 4 (cancel c2World 2 (some "stop"))) 2).state = PState.REJECTED
    ∧ (getP (run 4 (cancel c2World 2 (some "stop"))) 0).result
        = JSVal.cancelErr (some "stop") :=
  have h := C2_cancel_propagates_through_ancestor_chain c2World 0 [1, 2] (some "stop")
    (by decide) (by decide) (by decide) (by decide) (by decide) (by decide)
    (by decide)
    ⟨by decide, by decide, trivial⟩
    ⟨⟨Fn.fulfillWrap (UserFn.const 1 JSVal.undef) 1, by decide⟩,
     ⟨Fn.fulfillWrap (UserFn.const 2 JSVal.undef) 2, by decide⟩, trivial⟩
    (by decide) (by decide)
  ⟨(h.1 0 (by decide)).1, (h.1 1 (by decide)).1, (h.1 2 (by decide)).1,
   (h.1 0 (by decide)).2⟩

end MetalPromise
